import Mathlib

/-!
# Verification of the crypto tax calculator (main.go)

A shallow embedding of the FIFO ledger engine and the event-classification logic of
`main.go` (package `main`, github.com/markokocic/crypto-tax-calculator).

Modelling conventions:
* `decimal.Decimal` (github.com/shopspring/decimal) is modelled as exact rationals `ℚ`
  (the repository states all monetary/amount calculations use exact decimal arithmetic).
* `time.Time` is modelled as seconds since the Unix epoch (`ℤ`); `Sub(..).Hours()/24` in
  `handleSell` becomes division of the second difference by 86400, and `Time.Year()`
  becomes `yearOf`, a Gregorian calendar computation on epoch seconds.
* Go's nested maps `Inventories` and `TaxYears` are modelled as total functions with the
  empty bucket / zero `Gains` as default (Go's lazy `ensure...`/`getGainsSlot` creation is
  then the identity); `map[string]bool` filter sets become membership predicates.
* `log.Printf` calls are pure logging with no effect on `State`; they are erased.
* Handlers in Go return an `error` that is always `nil`; they are modelled as total
  functions.  The sell shortfall warning condition (line 812) is exposed as `sellWarned`.
-/

namespace CryptoTax

/-- `decimal.Decimal`, modelled as exact rationals. -/
abbrev Dec := ℚ

/-- `strings.Contains` on character lists: does `pat` occur contiguously in `s`? -/
def listContains : List Char → List Char → Bool
  | _, [] => true
  | [], _ :: _ => false
  | c :: rest, p :: ps => List.isPrefixOf (p :: ps) (c :: rest) || listContains rest (p :: ps)

/-- `strings.Contains s pat`. -/
def stringsContains (s pat : String) : Bool :=
  listContains s.toList pat.toList

/-- `strings.ToLower`, via the character list (every case split in the source involves
ASCII data, where `Char.toLower` agrees with Go's Unicode lowering). -/
def toLowerStr (s : String) : String :=
  String.mk (s.data.map Char.toLower)

/-- `strings.TrimSpace` on a character list: drop leading and trailing whitespace. -/
def trimChars (l : List Char) : List Char :=
  ((l.dropWhile Char.isWhitespace).reverse.dropWhile Char.isWhitespace).reverse

/-- `strings.TrimSpace`. -/
def trimStr (s : String) : String :=
  String.mk (trimChars s.data)

/-- `InventoryEntry` (main.go lines 43-49): one FIFO lot. -/
structure InventoryEntry where
  time : ℤ
  amount : Dec
  unitCost : Dec
  totalCost : Dec
  sourceFiles : List String
deriving DecidableEq

/-- `Gains` (main.go lines 51-55). -/
structure Gains where
  short : Dec
  long : Dec
  income : Dec
deriving DecidableEq

/-- `Tx` (main.go lines 27-41).  The `Raw` map is only read during parsing and never by
the ledger, so it is omitted here. -/
structure Tx where
  wallet : String
  time : ℤ
  type : String
  commodity : String
  currency : String
  amount : Dec
  cost : Dec
  pricePerUnit : Dec
  fee : Dec
  sourceFile : String
  referenceID : String
  pairedComment : String
deriving DecidableEq

/-- `State` (main.go lines 57-63): inventories wallet → commodity → lots, tax years
year → wallet → commodity → gains, plus the verbosity flag and logging filters. -/
structure State where
  inventories : String → String → List InventoryEntry
  taxYears : ℤ → String → String → Gains
  verbose : Bool
  walletFilter : String → Bool
  commodityFilter : String → Bool

/-- `NewState` (main.go lines 65-87): fresh empty state; the filter sets keep the
trimmed (and for commodities lowercased) non-empty filter values. -/
def NewState (verbose : Bool) (walletFilters commodityFilters : List String) : State where
  inventories := fun _ _ => []
  taxYears := fun _ _ _ => ⟨0, 0, 0⟩
  verbose := verbose
  walletFilter := fun w => walletFilters.any fun x => (trimStr x != "") && (trimStr x == w)
  commodityFilter := fun c =>
    commodityFilters.any fun x => (toLowerStr (trimStr x) != "") && (toLowerStr (trimStr x) == c)

/-- The comparison used by `addInventory`'s sort: ascending acquisition time. -/
def entryLE (a b : InventoryEntry) : Prop := a.time ≤ b.time

instance : DecidableRel entryLE := fun a b => inferInstanceAs (Decidable (a.time ≤ b.time))

instance : IsTotal InventoryEntry entryLE := ⟨fun a b => Int.le_total a.time b.time⟩

instance : IsTrans InventoryEntry entryLE := ⟨fun _ _ _ h1 h2 => le_trans h1 h2⟩

/-- Pointwise update of the inventories map at one (wallet, commodity) key. -/
def updInv (f : String → String → List InventoryEntry) (w c : String)
    (l : List InventoryEntry) : String → String → List InventoryEntry :=
  fun w1 c1 => if w1 = w ∧ c1 = c then l else f w1 c1

/-- Pointwise update of the tax-years map at one (year, wallet, commodity) key. -/
def updTY (f : ℤ → String → String → Gains) (y : ℤ) (w c : String) (g : Gains) :
    ℤ → String → String → Gains :=
  fun y1 w1 c1 => if y1 = y ∧ w1 = w ∧ c1 = c then g else f y1 w1 c1

/-- `addInventory` (main.go lines 650-658): append the entry to the bucket and re-sort it
by ascending acquisition time.  Go uses `sort.Slice` with the strict `Time.Before`
comparator, which fixes no order between equal timestamps; insertion sort on `entryLE` is
one deterministic realisation of that sort. -/
def addInventory (s : State) (wallet commodity : String) (entry : InventoryEntry) : State :=
  { s with inventories := (updInv s.inventories wallet commodity
      (List.insertionSort entryLE (s.inventories wallet commodity ++ [entry]))) }

/-- `decimal.NewFromFloat(1e-12)` (main.go lines 807, 879): residual lots at or below
this threshold are removed from their bucket. -/
def eps12 : Dec := 1 / 10 ^ 12

/-- `decimal.NewFromFloat(1e-9)` (main.go line 811): sell shortfall warning threshold. -/
def eps9 : Dec := 1 / 10 ^ 9

/-- `time.Time.Year()` on epoch seconds: Gregorian calendar year (standard
days-to-civil conversion). -/
def yearOf (t : ℤ) : ℤ :=
  let z := Int.fdiv t 86400 + 719468
  let era := Int.fdiv z 146097
  let doe := z - era * 146097
  let yoe := Int.fdiv (doe - Int.fdiv doe 1460 + Int.fdiv doe 36524 - Int.fdiv doe 146096) 365
  let y := yoe + era * 400
  let doy := doe - (365 * yoe + Int.fdiv yoe 4 - Int.fdiv yoe 100)
  let mp := Int.fdiv (5 * doy + 2) 153
  let m := if mp < 10 then mp + 3 else mp - 9
  if m ≤ 2 then y + 1 else y

/-- `handleBuy` (main.go lines 680-703): insert a lot of `|tx.Amount|` units at unit cost
`tx.Cost / |tx.Amount|` (zero if the amount is zero) carrying the transaction timestamp.
Gains are untouched. -/
def handleBuy (s : State) (tx : Tx) : State :=
  let wallet := tx.wallet
  let commodity := tx.commodity
  let amount := |tx.amount|
  let unitCost : Dec := if amount = 0 then 0 else tx.cost / amount
  let entry : InventoryEntry :=
    { time := tx.time, amount := amount, unitCost := unitCost,
      totalCost := unitCost * amount, sourceFiles := [tx.sourceFile] }
  addInventory s wallet commodity entry

/-- `handleIncome` (main.go lines 705-740): zero amounts are a no-op; otherwise insert a
lot valued at `tx.Cost` (zero-basis when no cost is present) and add `tx.Cost` to the
income bucket of the transaction's year. -/
def handleIncome (s : State) (tx : Tx) : State :=
  if tx.amount = 0 then s
  else
    let wallet := tx.wallet
    let commodity := tx.commodity
    let amountAbs := |tx.amount|
    let totalCost : Dec := if tx.cost = 0 then 0 else tx.cost
    let unitCost : Dec :=
      if tx.cost = 0 then 0 else if amountAbs = 0 then 0 else tx.cost / amountAbs
    let entry : InventoryEntry :=
      { time := tx.time, amount := amountAbs, unitCost := unitCost,
        totalCost := totalCost, sourceFiles := [tx.sourceFile] }
    let s1 := addInventory s wallet commodity entry
    let year := yearOf tx.time
    let g := s1.taxYears year wallet commodity
    { s1 with taxYears := (updTY s1.taxYears year wallet commodity
        { g with income := g.income + totalCost }) }

/-- Result of the FIFO consumption loop of `handleSell` (main.go lines 766-810). -/
structure SellOut where
  newInv : List InventoryEntry
  remaining : Dec
  shortGain : Dec
  longGain : Dec
deriving DecidableEq

/-- The FIFO loop of `handleSell` (main.go lines 766-810): walk the bucket in order,
consume `use = min(entry.Amount, remaining)` per lot, allocate proceeds proportionally
(`proceedsTotal * use / amount`), classify each slice by the 365-day holding boundary,
and keep consumed residuals only above `eps12`.  Go adds each slice's gain to the same
(year, wallet, commodity) slot; the loop returns the accumulated short/long totals, which
`handleSellCore` adds to that slot once (same sum in `ℚ`). -/
def sellLoop (txTime : ℤ) (amount proceedsTotal : Dec) :
    List InventoryEntry → Dec → SellOut
  | [], remaining => ⟨[], remaining, 0, 0⟩
  | entry :: rest, remaining =>
    if remaining ≤ 0 then
      let r := sellLoop txTime amount proceedsTotal rest remaining
      ⟨entry :: r.newInv, r.remaining, r.shortGain, r.longGain⟩
    else if entry.amount ≤ 0 then
      sellLoop txTime amount proceedsTotal rest remaining
    else
      let use := min entry.amount remaining
      let portionCostBasis := entry.unitCost * use
      let portionProceeds : Dec := if amount = 0 then 0 else proceedsTotal * use / amount
      let holdingDays : Dec := ((txTime - entry.time : ℤ) : Dec) / 86400
      let gain := portionProceeds - portionCostBasis
      let entryRest : InventoryEntry :=
        { entry with amount := entry.amount - use,
                     totalCost := entry.unitCost * (entry.amount - use) }
      let r := sellLoop txTime amount proceedsTotal rest (remaining - use)
      ⟨(if eps12 < entryRest.amount then [entryRest] else []) ++ r.newInv,
        r.remaining,
        r.shortGain + (if (365 : Dec) ≤ holdingDays then 0 else gain),
        r.longGain + (if (365 : Dec) ≤ holdingDays then gain else 0)⟩

/-- `handleSell` (main.go lines 742-820) together with the shortfall condition of
line 812 (`remaining > 1e-9`): net proceeds are `Cost − Fee` (with the price-per-unit
fallback when `Cost` is zero), the bucket is replaced by the loop's surviving lots, and
the accumulated short/long gains are added to the (sale year, wallet, commodity) slot. -/
def handleSellCore (s : State) (tx : Tx) : State × Bool :=
  let wallet := tx.wallet
  let commodity := tx.commodity
  let amount := |tx.amount|
  if amount = 0 then (s, false)
  else
    let inv := s.inventories wallet commodity
    let proceedsTotal0 := tx.cost
    let proceedsTotal1 :=
      if proceedsTotal0 = 0 then
        (if tx.pricePerUnit ≠ 0 then tx.pricePerUnit * amount else proceedsTotal0)
      else proceedsTotal0
    let proceedsTotal := proceedsTotal1 - tx.fee
    let r := sellLoop tx.time amount proceedsTotal inv amount
    let year := yearOf tx.time
    let g := s.taxYears year wallet commodity
    let gNew : Gains := { g with short := g.short + r.shortGain, long := g.long + r.longGain }
    ({ s with inventories := updInv s.inventories wallet commodity r.newInv,
              taxYears := updTY s.taxYears year wallet commodity gNew },
      eps9 < r.remaining)

/-- `handleSell` (main.go lines 742-820): the state effect of a sell. -/
def handleSell (s : State) (tx : Tx) : State := (handleSellCore s tx).1

/-- The shortfall warning condition of `handleSell` (main.go lines 811-817): the sell
requested more than the bucket supplied, beyond the 1e-9 tolerance. -/
def sellWarned (s : State) (tx : Tx) : Bool := (handleSellCore s tx).2

/-- `handleConvert` (main.go lines 822-834): negative amounts sell, positive buy,
zero is a no-op. -/
def handleConvert (s : State) (tx : Tx) : State :=
  if tx.amount < 0 then handleSell s tx
  else if tx.amount > 0 then handleBuy s tx
  else s

/-- Result of the transfer consumption loop of `handleTransfer` (main.go lines 856-882):
the rebuilt source bucket, the unmoved remainder, and the state carrying the destination
insertions made during the loop. -/
structure TransferOut where
  newSrcInv : List InventoryEntry
  remaining : Dec
  state : State

/-- The FIFO loop of `handleTransfer` (main.go lines 856-882): consume source lots in
order, re-creating each consumed slice in the destination bucket with the same
acquisition time and unit cost, and keep consumed source residuals only above `eps12`. -/
def transferLoop (destWallet commodity : String) :
    List InventoryEntry → Dec → State → TransferOut
  | [], remaining, s => ⟨[], remaining, s⟩
  | entry :: rest, remaining, s =>
    if remaining ≤ 0 then
      let r := transferLoop destWallet commodity rest remaining s
      ⟨entry :: r.newSrcInv, r.remaining, r.state⟩
    else if entry.amount ≤ 0 then
      transferLoop destWallet commodity rest remaining s
    else
      let use := min entry.amount remaining
      let moved : InventoryEntry :=
        { time := entry.time, amount := use, unitCost := entry.unitCost,
          totalCost := entry.unitCost * use, sourceFiles := entry.sourceFiles }
      let s1 := addInventory s destWallet commodity moved
      let entryRest : InventoryEntry :=
        { entry with amount := entry.amount - use,
                     totalCost := (entry.amount - use) * entry.unitCost }
      let r := transferLoop destWallet commodity rest (remaining - use) s1
      ⟨(if eps12 < entryRest.amount then [entryRest] else []) ++ r.newSrcInv,
        r.remaining, r.state⟩

/-- `handleTransfer` (main.go lines 836-890): move `|tx.Amount|` units of the commodity
from the wallet named in `PairedComment` (trimmed) to `tx.Wallet`, preserving unit cost
and acquisition time; zero amounts and a missing source wallet are no-ops.  The source
bucket is overwritten with the loop's surviving lots after the loop (the order of Go's
lines 856-888). -/
def handleTransfer (s : State) (tx : Tx) : State :=
  let srcWallet := trimStr tx.pairedComment
  let destWallet := tx.wallet
  let commodity := tx.commodity
  let amountToMove := |tx.amount|
  if amountToMove = 0 then s
  else if srcWallet = "" then s
  else
    let srcInv := s.inventories srcWallet commodity
    let r := transferLoop destWallet commodity srcInv amountToMove s
    { r.state with inventories := updInv r.state.inventories srcWallet commodity r.newSrcInv }

/-- `normalizeType` (main.go lines 622-624). -/
def normalizeType (t : String) : String := toLowerStr (trimStr t)

/-- The handler selection of `processTransactions` (main.go lines 591-613): the handler
table of `getHandlers` (lines 626-638) keyed by the normalized type, then the heuristic
fallback switch of lines 592-613 in source order.  Go first picks the handler value `h`
and then calls `h(state, tx)`; this function is that selection. -/
def selectHandler (tx : Tx) : State → Tx → State :=
  let nt := normalizeType tx.type
  if nt = "buy" then handleBuy
  else if nt = "sell" then handleSell
  else if nt = "income" then handleIncome
  else if nt = "reward" then handleIncome
  else if nt = "staking" then handleIncome
  else if nt = "deposit" then handleIncome
  else if nt = "convert" then handleConvert
  else if nt = "trade" then handleConvert
  else if nt = "transfer" then handleTransfer
  else
    let tt := toLowerStr tx.type
    if stringsContains tt "sell" || tx.amount < 0 then handleSell
    else if stringsContains tt "buy" || tx.amount > 0 then handleBuy
    else if stringsContains tt "reward" || stringsContains tt "staking" ||
        stringsContains tt "deposit" || stringsContains tt "income" then handleIncome
    else if stringsContains tt "convert" || stringsContains tt "trade" then handleConvert
    else if stringsContains tt "transfer" then handleTransfer
    else if tx.amount > 0 then handleBuy
    else handleSell

/-- One step of `processTransactions` (main.go lines 570-618): select the handler for
the transaction's type and apply it. -/
def dispatch (s : State) (tx : Tx) : State :=
  selectHandler tx s tx

/-- `processTransactions` (main.go lines 570-620): apply every transaction in order.
The Go version returns an error that is always `nil` (no handler fails). -/
def processTransactions (s : State) (txs : List Tx) : State :=
  txs.foldl dispatch s

/-! ## Kraken group classification (main.go lines 224-387)

A raw CSV record is modelled as a total map from lower-cased header name to field value
(Go's `map[string]string` returns `""` for absent keys). -/

/-- A parsed CSV row: lower-cased header name → field value. -/
abbrev RawRecord := String → String

/-- `firstNonEmpty` (main.go lines 519-534): the first listed field whose trimmed value
is non-empty.  The keys the callers pass are already lower-case, so Go's second
lookup under the raw key coincides with the first. -/
def firstNonEmpty (m : RawRecord) : List String → String
  | [] => ""
  | k :: rest => if trimStr (m k) ≠ "" then m k else firstNonEmpty m rest

/-- `isFiat` (main.go lines 135-145). -/
def isFiat (asset : String) : Bool :=
  let a := toLowerStr (trimStr asset)
  (a == "eur") || (a == "usd") || (a == "gbp") || (a == "chf") ||
    (a == "cad") || (a == "aud") || (a == "jpy")

/-- The income-group detection of `parseCSVFile` (main.go lines 240-244): some record's
type/tx_type field contains "earn", "reward" or "staking". -/
def isIncomeGroup (group : List RawRecord) : Bool :=
  group.any fun rec =>
    let typ := toLowerStr (firstNonEmpty rec ["type", "tx_type"])
    stringsContains typ "earn" || stringsContains typ "reward" || stringsContains typ "staking"

/-- The transfer-group detection of `parseCSVFile` (main.go lines 241-248): some record's
subtype field contains "autoallocation" or "allocation". -/
def isTransferGroup (group : List RawRecord) : Bool :=
  group.any fun rec =>
    let sub := toLowerStr (firstNonEmpty rec ["subtype"])
    stringsContains sub "autoallocation" || stringsContains sub "allocation"

/-- The non-fiat rows of a Kraken group (main.go lines 257-268). -/
def krakenCryptoRows (group : List RawRecord) : List RawRecord :=
  group.filter fun rec => !(isFiat (firstNonEmpty rec ["asset", "pair", "symbol"]))

/-- The classified kind of an event group (spec §3/§4.1). -/
inductive GroupKind
  | Transfer
  | Income
  | Trade
deriving DecidableEq

/-- The branch structure of `parseCSVFile`'s per-group processing (main.go lines
235-387): line 271 takes the transfer-synthesis branch (`continue`) whenever the group
is transfer-like and has crypto rows; only otherwise does line 347/376 force the
emitted transactions to `income` for income-like groups; all remaining groups keep the
per-row types (a trade). -/
def classifyKrakenGroup (group : List RawRecord) : GroupKind :=
  if isTransferGroup group && !(krakenCryptoRows group).isEmpty then GroupKind.Transfer
  else if isIncomeGroup group then GroupKind.Income
  else GroupKind.Trade

/-- The total-cost computation of `parseKrakenRecord` (main.go lines 441-453) on the
already-parsed decimal fields: the cost field, with the unit-price fallback when it is
zero, plus the fee for buy-like types (fee capitalised into basis). -/
def krakenTotalCost (typ : String) (cost pricePer amount fee : Dec) : Dec :=
  let totalCost := if cost = 0 ∧ pricePer ≠ 0 then pricePer * |amount| else cost
  if typ = "buy" ∨ typ = "deposit" ∨ typ = "staking" ∨ typ = "reward" ∨
      typ = "stakingreward" then totalCost + fee
  else totalCost

/-! ## Derived observations used by the theorems -/

/-- Total lot quantity of a bucket. -/
def sumAmount (l : List InventoryEntry) : Dec :=
  (l.map (fun e => e.amount)).sum

/-- Total cost basis of a bucket: sum of quantity × unit cost over its lots. -/
def basisSum (l : List InventoryEntry) : Dec :=
  (l.map (fun e => e.amount * e.unitCost)).sum

/-- Total quantity held in a bucket at one acquisition timestamp. -/
def amountAt (l : List InventoryEntry) (τ : ℤ) : Dec :=
  match l with
  | [] => 0
  | e :: rest => (if e.time = τ then e.amount else 0) + amountAt rest τ

/-- The cost basis silently discarded by the transfer loop (main.go line 879): the basis
of consumed source lots whose residual is positive but at most `eps12`, plus the basis of
source lots dropped for having non-positive quantity.  Mirrors `transferLoop`. -/
def transferDroppedBasis : List InventoryEntry → Dec → Dec
  | [], _ => 0
  | entry :: rest, remaining =>
    if remaining ≤ 0 then 0
    else if entry.amount ≤ 0 then
      entry.amount * entry.unitCost + transferDroppedBasis rest remaining
    else
      let use := min entry.amount remaining
      (if eps12 < entry.amount - use then 0 else (entry.amount - use) * entry.unitCost) +
        transferDroppedBasis rest (remaining - use)

/-- Lot positivity: every lot resident in any bucket has strictly positive quantity. -/
def InvPos (s : State) : Prop :=
  ∀ w c, ∀ e ∈ s.inventories w c, 0 < e.amount

/-- Observational equivalence of two states: same inventories and same gains.  The
verbosity flag and logging filters are not observed. -/
def Obs (s1 s2 : State) : Prop :=
  s1.inventories = s2.inventories ∧ s1.taxYears = s2.taxYears

/-! ## Concrete inputs used in counterexamples and scenario conjuncts -/

/-- A Kraken row carrying both an income marker (type "staking") and an allocation
marker (subtype "allocation") on a crypto asset. -/
def c5Rec : RawRecord :=
  fun k => if k = "type" then "staking"
    else if k = "subtype" then "allocation"
    else if k = "asset" then "ETH" else ""

/-- A Kraken row with an income marker only. -/
def c5RecIncome : RawRecord :=
  fun k => if k = "type" then "reward" else ""

/-- C1 scenario: buy of quantity 2 at t=0 for cost 200. -/
def c1Buy1 : Tx := ⟨"w", 0, "buy", "BTC", "", 2, 200, 0, 0, "f1", "", ""⟩

/-- C1 scenario: buy of quantity 3 at t=1 for cost 450. -/
def c1Buy2 : Tx := ⟨"w", 1, "buy", "BTC", "", 3, 450, 0, 0, "f2", "", ""⟩

/-- C1 scenario: sell of quantity 2 at t=2 for proceeds 400. -/
def c1Sell : Tx := ⟨"w", 2, "sell", "BTC", "", -2, 400, 0, 0, "f3", "", ""⟩

/-- A state holding a single lot (1 unit at unit cost 5) of commodity "X" in wallet
"a". -/
def c2State : State where
  inventories := fun w c => if w = "a" ∧ c = "X" then [⟨0, 1, 5, 5, []⟩] else []
  taxYears := fun _ _ _ => ⟨0, 0, 0⟩
  verbose := false
  walletFilter := fun _ => false
  commodityFilter := fun _ => false

/-- A transfer of 1 unit of "X" whose source wallet (PairedComment) equals its
destination wallet. -/
def c2Tx : Tx := ⟨"a", 0, "transfer", "X", "", 1, 0, 0, 0, "f", "r", "a"⟩

/-- A state holding a single lot (2 units at unit cost 3) of commodity "X" in wallet
"a". -/
def c2bState : State where
  inventories := fun w c => if w = "a" ∧ c = "X" then [⟨0, 2, 3, 6, []⟩] else []
  taxYears := fun _ _ _ => ⟨0, 0, 0⟩
  verbose := false
  walletFilter := fun _ => false
  commodityFilter := fun _ => false

/-- A transfer of 1 unit of "X" from wallet "a" to the distinct wallet "b". -/
def c2bTx : Tx := ⟨"b", 0, "transfer", "X", "", 1, 0, 0, 0, "f", "r", "a"⟩

/-- A buy-typed transaction with zero quantity. -/
def c8Tx : Tx := ⟨"w", 0, "buy", "B", "", 0, 100, 0, 0, "f", "", ""⟩

/-- A state holding a single lot (1 unit at unit cost 10, acquired at t = 0) of
commodity "Z" in wallet "m". -/
def c4State : State where
  inventories := fun w c => if w = "m" ∧ c = "Z" then [⟨0, 1, 10, 10, []⟩] else []
  taxYears := fun _ _ _ => ⟨0, 0, 0⟩
  verbose := false
  walletFilter := fun _ => false
  commodityFilter := fun _ => false

/-- A state holding two lots of commodity "Z" in wallet "m": quantity 2 at unit cost 7
(acquired at t = 0) and quantity 3 at unit cost 11 (acquired 364 days before
t = 31536000). -/
def c3State : State where
  inventories := fun w c =>
    if w = "m" ∧ c = "Z" then [⟨0, 2, 7, 14, []⟩, ⟨31449600, 3, 11, 33, []⟩] else []
  taxYears := fun _ _ _ => ⟨0, 0, 0⟩
  verbose := false
  walletFilter := fun _ => false
  commodityFilter := fun _ => false

/-- A state holding a single lot of 1 ETH bought for 1000 at t = 0 in wallet "e". -/
def c6State : State where
  inventories := fun w c => if w = "e" ∧ c = "ETH" then [⟨0, 1, 1000, 1000, []⟩] else []
  taxYears := fun _ _ _ => ⟨0, 0, 0⟩
  verbose := false
  walletFilter := fun _ => false
  commodityFilter := fun _ => false

end CryptoTax

namespace CryptoTax

/-! ## Basic lemmas about the embedding -/

theorem eps12_pos : (0 : Dec) < eps12 := by norm_num [eps12]

theorem eps9_pos : (0 : Dec) < eps9 := by norm_num [eps9]

theorem updInv_same (f : String → String → List InventoryEntry) (w c : String)
    (l : List InventoryEntry) : updInv f w c l w c = l := by
  simp [updInv]

theorem updInv_other (f : String → String → List InventoryEntry) (w c : String)
    (l : List InventoryEntry) (w1 c1 : String) (h : ¬(w1 = w ∧ c1 = c)) :
    updInv f w c l w1 c1 = f w1 c1 := by
  simp [updInv, h]

theorem updTY_same (f : ℤ → String → String → Gains) (y : ℤ) (w c : String) (g : Gains) :
    updTY f y w c g y w c = g := by
  simp [updTY]

theorem updTY_other (f : ℤ → String → String → Gains) (y : ℤ) (w c : String) (g : Gains)
    (y1 : ℤ) (w1 c1 : String) (h : ¬(y1 = y ∧ w1 = w ∧ c1 = c)) :
    updTY f y w c g y1 w1 c1 = f y1 w1 c1 := by
  simp [updTY, h]

theorem addInventory_bucket (s : State) (w c : String) (e : InventoryEntry) :
    (addInventory s w c e).inventories w c =
      List.insertionSort entryLE (s.inventories w c ++ [e]) := by
  simp [addInventory, updInv]

theorem addInventory_bucket_perm (s : State) (w c : String) (e : InventoryEntry) :
    ((addInventory s w c e).inventories w c).Perm (e :: s.inventories w c) := by
  rw [addInventory_bucket]
  exact (List.perm_insertionSort _ _).trans (List.perm_append_singleton _ _)

theorem addInventory_other (s : State) (w c : String) (e : InventoryEntry)
    (w1 c1 : String) (h : ¬(w1 = w ∧ c1 = c)) :
    (addInventory s w c e).inventories w1 c1 = s.inventories w1 c1 := by
  simp [addInventory, updInv, h]

theorem addInventory_taxYears (s : State) (w c : String) (e : InventoryEntry) :
    (addInventory s w c e).taxYears = s.taxYears := rfl

theorem basisSum_nil : basisSum [] = 0 := rfl

theorem basisSum_cons (e : InventoryEntry) (l : List InventoryEntry) :
    basisSum (e :: l) = e.amount * e.unitCost + basisSum l := by
  simp [basisSum]

theorem basisSum_append (l1 l2 : List InventoryEntry) :
    basisSum (l1 ++ l2) = basisSum l1 + basisSum l2 := by
  simp [basisSum]

theorem basisSum_perm {l1 l2 : List InventoryEntry} (h : l1.Perm l2) :
    basisSum l1 = basisSum l2 :=
  (h.map _).sum_eq

theorem addInventory_basis (s : State) (w c : String) (e : InventoryEntry) :
    basisSum ((addInventory s w c e).inventories w c) =
      e.amount * e.unitCost + basisSum (s.inventories w c) := by
  rw [basisSum_perm (addInventory_bucket_perm s w c e), basisSum_cons]

theorem amountAt_nil (τ : ℤ) : amountAt [] τ = 0 := rfl

theorem amountAt_cons (e : InventoryEntry) (l : List InventoryEntry) (τ : ℤ) :
    amountAt (e :: l) τ = (if e.time = τ then e.amount else 0) + amountAt l τ := rfl

theorem amountAt_append (l1 l2 : List InventoryEntry) (τ : ℤ) :
    amountAt (l1 ++ l2) τ = amountAt l1 τ + amountAt l2 τ := by
  induction l1 with
  | nil => simp [amountAt]
  | cons e l ih => simp [amountAt_cons, ih]; ring

theorem amountAt_eq_zero {l : List InventoryEntry} {τ : ℤ}
    (h : ∀ e ∈ l, e.time ≠ τ) : amountAt l τ = 0 := by
  induction l with
  | nil => rfl
  | cons e l ih =>
    rw [amountAt_cons, if_neg (h e (List.mem_cons_self e l)),
      ih fun x hx => h x (List.mem_cons_of_mem e hx), add_zero]

theorem holding_le_iff (d : ℤ) : ((365 : Dec) ≤ (d : Dec) / 86400) ↔ 31536000 ≤ d := by
  rw [le_div_iff₀ (show (0 : Dec) < 86400 by norm_num)]
  constructor
  · intro h
    have h365 : ((31536000 : ℤ) : Dec) ≤ (d : Dec) := by push_cast; linarith
    exact_mod_cast h365
  · intro h
    have h365 : ((31536000 : ℤ) : Dec) ≤ (d : Dec) := by exact_mod_cast h
    push_cast at h365
    linarith

theorem sellLoop_nil (t : ℤ) (a P r : Dec) : sellLoop t a P [] r = ⟨[], r, 0, 0⟩ := rfl

theorem sellLoop_cons_skip (t : ℤ) (a P : Dec) (e : InventoryEntry)
    (l : List InventoryEntry) (r : Dec) (hr : r ≤ 0) :
    sellLoop t a P (e :: l) r =
      ⟨e :: (sellLoop t a P l r).newInv, (sellLoop t a P l r).remaining,
        (sellLoop t a P l r).shortGain, (sellLoop t a P l r).longGain⟩ := by
  rw [sellLoop, if_pos hr]

theorem sellLoop_cons_drop (t : ℤ) (a P : Dec) (e : InventoryEntry)
    (l : List InventoryEntry) (r : Dec) (hr : ¬r ≤ 0) (he : e.amount ≤ 0) :
    sellLoop t a P (e :: l) r = sellLoop t a P l r := by
  rw [sellLoop, if_neg hr, if_pos he]

theorem sellLoop_cons_consume (t : ℤ) (a P : Dec) (e : InventoryEntry)
    (l : List InventoryEntry) (r : Dec) (hr : ¬r ≤ 0) (he : ¬e.amount ≤ 0) :
    sellLoop t a P (e :: l) r =
      ⟨(if eps12 < e.amount - min e.amount r then
          [InventoryEntry.mk e.time (e.amount - min e.amount r) e.unitCost
            (e.unitCost * (e.amount - min e.amount r)) e.sourceFiles] else []) ++
          (sellLoop t a P l (r - min e.amount r)).newInv,
        (sellLoop t a P l (r - min e.amount r)).remaining,
        (sellLoop t a P l (r - min e.amount r)).shortGain +
          (if (365 : Dec) ≤ ((t - e.time : ℤ) : Dec) / 86400 then 0
            else (if a = 0 then 0 else P * min e.amount r / a) - e.unitCost * min e.amount r),
        (sellLoop t a P l (r - min e.amount r)).longGain +
          (if (365 : Dec) ≤ ((t - e.time : ℤ) : Dec) / 86400 then
            (if a = 0 then 0 else P * min e.amount r / a) - e.unitCost * min e.amount r
            else 0)⟩ := by
  rw [sellLoop, if_neg hr, if_neg he]

theorem sellLoop_of_nonpos (t : ℤ) (a P : Dec) (l : List InventoryEntry) (r : Dec)
    (hr : r ≤ 0) : sellLoop t a P l r = ⟨l, r, 0, 0⟩ := by
  induction l with
  | nil => rfl
  | cons e l ih => rw [sellLoop_cons_skip t a P e l r hr, ih]

theorem sellLoop_time_mem (t : ℤ) (a P : Dec) :
    ∀ (l : List InventoryEntry) (r : Dec) (x : InventoryEntry),
      x ∈ (sellLoop t a P l r).newInv → ∃ e ∈ l, x.time = e.time := by
  intro l
  induction l with
  | nil =>
    intro r x hx
    rw [sellLoop_nil] at hx
    cases hx
  | cons e rest ih =>
    intro r x hx
    by_cases hr : r ≤ 0
    · simp only [sellLoop_cons_skip t a P e rest r hr] at hx
      rcases List.mem_cons.mp hx with h | h
      · exact ⟨e, List.mem_cons_self _ _, by rw [h]⟩
      · obtain ⟨y, hy, hxy⟩ := ih r x h
        exact ⟨y, List.mem_cons_of_mem _ hy, hxy⟩
    · by_cases he : e.amount ≤ 0
      · rw [sellLoop_cons_drop t a P e rest r hr he] at hx
        obtain ⟨y, hy, hxy⟩ := ih r x hx
        exact ⟨y, List.mem_cons_of_mem _ hy, hxy⟩
      · simp only [sellLoop_cons_consume t a P e rest r hr he] at hx
        rcases List.mem_append.mp hx with h | h
        · by_cases hc : eps12 < e.amount - min e.amount r
          · rw [if_pos hc] at h
            have hx2 := List.mem_singleton.mp h
            subst hx2
            exact ⟨e, List.mem_cons_self _ _, rfl⟩
          · rw [if_neg hc] at h
            cases h
        · obtain ⟨y, hy, hxy⟩ := ih _ x h
          exact ⟨y, List.mem_cons_of_mem _ hy, hxy⟩

theorem transferLoop_nil (B c : String) (r : Dec) (s : State) :
    transferLoop B c [] r s = ⟨[], r, s⟩ := rfl

theorem transferLoop_cons_skip (B c : String) (e : InventoryEntry)
    (l : List InventoryEntry) (r : Dec) (s : State) (hr : r ≤ 0) :
    transferLoop B c (e :: l) r s =
      ⟨e :: (transferLoop B c l r s).newSrcInv, (transferLoop B c l r s).remaining,
        (transferLoop B c l r s).state⟩ := by
  rw [transferLoop, if_pos hr]

theorem transferLoop_cons_drop (B c : String) (e : InventoryEntry)
    (l : List InventoryEntry) (r : Dec) (s : State) (hr : ¬r ≤ 0) (he : e.amount ≤ 0) :
    transferLoop B c (e :: l) r s = transferLoop B c l r s := by
  rw [transferLoop, if_neg hr, if_pos he]

theorem transferLoop_cons_consume (B c : String) (e : InventoryEntry)
    (l : List InventoryEntry) (r : Dec) (s : State) (hr : ¬r ≤ 0) (he : ¬e.amount ≤ 0) :
    transferLoop B c (e :: l) r s =
      ⟨(if eps12 < e.amount - min e.amount r then
          [InventoryEntry.mk e.time (e.amount - min e.amount r) e.unitCost
            ((e.amount - min e.amount r) * e.unitCost) e.sourceFiles] else []) ++
          (transferLoop B c l (r - min e.amount r)
            (addInventory s B c ⟨e.time, min e.amount r, e.unitCost,
              e.unitCost * min e.amount r, e.sourceFiles⟩)).newSrcInv,
        (transferLoop B c l (r - min e.amount r)
          (addInventory s B c ⟨e.time, min e.amount r, e.unitCost,
            e.unitCost * min e.amount r, e.sourceFiles⟩)).remaining,
        (transferLoop B c l (r - min e.amount r)
          (addInventory s B c ⟨e.time, min e.amount r, e.unitCost,
            e.unitCost * min e.amount r, e.sourceFiles⟩)).state⟩ := by
  rw [transferLoop, if_neg hr, if_neg he]

theorem transferDroppedBasis_of_nonpos (l : List InventoryEntry) (r : Dec) (hr : r ≤ 0) :
    transferDroppedBasis l r = 0 := by
  cases l with
  | nil => rfl
  | cons e rest => rw [transferDroppedBasis, if_pos hr]

/-- The transfer loop conserves cost basis up to the silently dropped residuals: the
rebuilt source bucket plus what was added to the destination bucket plus the dropped
basis equals the original source bucket plus the original destination bucket. -/
theorem transferLoop_basis (B c : String) :
    ∀ (l : List InventoryEntry) (r : Dec) (s : State),
      basisSum (transferLoop B c l r s).newSrcInv +
        basisSum ((transferLoop B c l r s).state.inventories B c) +
        transferDroppedBasis l r =
      basisSum l + basisSum (s.inventories B c) := by
  intro l
  induction l with
  | nil =>
    intro r s
    simp [transferLoop_nil, transferDroppedBasis, basisSum_nil]
  | cons e rest ih =>
    intro r s
    by_cases hr : r ≤ 0
    · have h1 := ih r s
      have h2 : transferDroppedBasis rest r = 0 := transferDroppedBasis_of_nonpos _ _ hr
      have h3 : transferDroppedBasis (e :: rest) r = 0 := transferDroppedBasis_of_nonpos _ _ hr
      rw [h2] at h1
      simp only [transferLoop_cons_skip B c e rest r s hr, basisSum_cons, h3]
      linarith
    · by_cases he : e.amount ≤ 0
      · have h1 := ih r s
        have h3 : transferDroppedBasis (e :: rest) r =
            e.amount * e.unitCost + transferDroppedBasis rest r := by
          rw [transferDroppedBasis, if_neg hr, if_pos he]
        rw [transferLoop_cons_drop B c e rest r s hr he, h3, basisSum_cons]
        linarith
      · simp only [transferLoop_cons_consume B c e rest r s hr he]
        have h1 := ih (r - min e.amount r)
          (addInventory s B c ⟨e.time, min e.amount r, e.unitCost,
            e.unitCost * min e.amount r, e.sourceFiles⟩)
        have hadd : basisSum ((addInventory s B c ⟨e.time, min e.amount r, e.unitCost,
            e.unitCost * min e.amount r, e.sourceFiles⟩).inventories B c) =
            min e.amount r * e.unitCost + basisSum (s.inventories B c) := by
          rw [addInventory_basis]
        rw [hadd] at h1
        have h3 : transferDroppedBasis (e :: rest) r =
            (if eps12 < e.amount - min e.amount r then 0
              else (e.amount - min e.amount r) * e.unitCost) +
              transferDroppedBasis rest (r - min e.amount r) := by
          rw [transferDroppedBasis, if_neg hr, if_neg he]
        rw [h3, basisSum_append, basisSum_cons]
        by_cases hc : eps12 < e.amount - min e.amount r
        · simp only [if_pos hc, basisSum_cons, basisSum_nil]
          linarith
        · simp only [if_neg hc, basisSum_nil]
          linarith

/-- Every lot in the destination bucket after the transfer loop is either an original
destination lot or carries the acquisition time and unit cost of some source lot. -/
theorem transferLoop_dest_mem (B c : String) :
    ∀ (l : List InventoryEntry) (r : Dec) (s : State) (x : InventoryEntry),
      x ∈ (transferLoop B c l r s).state.inventories B c →
      x ∈ s.inventories B c ∨ ∃ e ∈ l, x.time = e.time ∧ x.unitCost = e.unitCost := by
  intro l
  induction l with
  | nil =>
    intro r s x hx
    exact Or.inl hx
  | cons e rest ih =>
    intro r s x hx
    by_cases hr : r ≤ 0
    · simp only [transferLoop_cons_skip B c e rest r s hr] at hx
      rcases ih r s x hx with h | ⟨y, hy, hxy⟩
      · exact Or.inl h
      · exact Or.inr ⟨y, List.mem_cons_of_mem _ hy, hxy⟩
    · by_cases he : e.amount ≤ 0
      · rw [transferLoop_cons_drop B c e rest r s hr he] at hx
        rcases ih r s x hx with h | ⟨y, hy, hxy⟩
        · exact Or.inl h
        · exact Or.inr ⟨y, List.mem_cons_of_mem _ hy, hxy⟩
      · simp only [transferLoop_cons_consume B c e rest r s hr he] at hx
        rcases ih _ _ x hx with h | ⟨y, hy, hxy⟩
        · rcases List.mem_cons.mp ((addInventory_bucket_perm s B c _).mem_iff.mp h) with
            h2 | h2
          · subst h2
            exact Or.inr ⟨e, List.mem_cons_self _ _, rfl, rfl⟩
          · exact Or.inl h2
        · exact Or.inr ⟨y, List.mem_cons_of_mem _ hy, hxy⟩

theorem transferLoop_taxYears (B c : String) :
    ∀ (l : List InventoryEntry) (r : Dec) (s : State),
      (transferLoop B c l r s).state.taxYears = s.taxYears := by
  intro l
  induction l with
  | nil => intro r s; rfl
  | cons e rest ih =>
    intro r s
    by_cases hr : r ≤ 0
    · simp only [transferLoop_cons_skip B c e rest r s hr]
      exact ih r s
    · by_cases he : e.amount ≤ 0
      · rw [transferLoop_cons_drop B c e rest r s hr he]
        exact ih r s
      · simp only [transferLoop_cons_consume B c e rest r s hr he]
        rw [ih]
        rfl

theorem transferLoop_inv_other (B c : String) :
    ∀ (l : List InventoryEntry) (r : Dec) (s : State) (w1 c1 : String),
      ¬(w1 = B ∧ c1 = c) →
      (transferLoop B c l r s).state.inventories w1 c1 = s.inventories w1 c1 := by
  intro l
  induction l with
  | nil => intro r s w1 c1 _; rfl
  | cons e rest ih =>
    intro r s w1 c1 h
    by_cases hr : r ≤ 0
    · simp only [transferLoop_cons_skip B c e rest r s hr]
      exact ih r s w1 c1 h
    · by_cases he : e.amount ≤ 0
      · rw [transferLoop_cons_drop B c e rest r s hr he]
        exact ih r s w1 c1 h
      · simp only [transferLoop_cons_consume B c e rest r s hr he]
        rw [ih _ _ _ _ h]
        exact addInventory_other _ _ _ _ _ _ h

/-- Survivors of the sell loop have positive quantity when the input lots do. -/
theorem sellLoop_pos (t : ℤ) (a P : Dec) :
    ∀ (l : List InventoryEntry) (r : Dec), (∀ e ∈ l, 0 < e.amount) →
      ∀ x ∈ (sellLoop t a P l r).newInv, 0 < x.amount := by
  intro l
  induction l with
  | nil =>
    intro r _ x hx
    rw [sellLoop_nil] at hx
    cases hx
  | cons e rest ih =>
    intro r hpos x hx
    by_cases hr : r ≤ 0
    · simp only [sellLoop_cons_skip t a P e rest r hr] at hx
      rcases List.mem_cons.mp hx with rfl | h
      · exact hpos x (List.mem_cons_self _ _)
      · exact ih r (fun y hy => hpos y (List.mem_cons_of_mem _ hy)) x h
    · by_cases he : e.amount ≤ 0
      · rw [sellLoop_cons_drop t a P e rest r hr he] at hx
        exact ih r (fun y hy => hpos y (List.mem_cons_of_mem _ hy)) x hx
      · simp only [sellLoop_cons_consume t a P e rest r hr he] at hx
        rcases List.mem_append.mp hx with h | h
        · by_cases hc : eps12 < e.amount - min e.amount r
          · rw [if_pos hc] at h
            have hx2 := List.mem_singleton.mp h
            subst hx2
            exact lt_trans eps12_pos hc
          · rw [if_neg hc] at h
            cases h
        · exact ih _ (fun y hy => hpos y (List.mem_cons_of_mem _ hy)) x h

theorem InvPos_addInventory {s : State} (hs : InvPos s) {e : InventoryEntry}
    (he : 0 < e.amount) (w c : String) : InvPos (addInventory s w c e) := by
  intro w1 c1 x hx
  by_cases h : w1 = w ∧ c1 = c
  · obtain ⟨rfl, rfl⟩ := h
    rcases List.mem_cons.mp ((addInventory_bucket_perm s w1 c1 e).mem_iff.mp hx) with
      rfl | h2
    · exact he
    · exact hs w1 c1 x h2
  · rw [addInventory_other _ _ _ _ _ _ h] at hx
    exact hs w1 c1 x hx

/-- Survivors of the transfer loop have positive quantity, and the loop preserves lot
positivity of the whole state, when the source lots are positive. -/
theorem transferLoop_pos (B c : String) :
    ∀ (l : List InventoryEntry) (r : Dec) (s : State), (∀ e ∈ l, 0 < e.amount) →
      InvPos s →
      (∀ x ∈ (transferLoop B c l r s).newSrcInv, 0 < x.amount) ∧
        InvPos (transferLoop B c l r s).state := by
  intro l
  induction l with
  | nil =>
    intro r s _ hs
    exact ⟨fun x hx => absurd hx (by simp [transferLoop_nil]), hs⟩
  | cons e rest ih =>
    intro r s hpos hs
    by_cases hr : r ≤ 0
    · simp only [transferLoop_cons_skip B c e rest r s hr]
      obtain ⟨h1, h2⟩ := ih r s (fun y hy => hpos y (List.mem_cons_of_mem _ hy)) hs
      refine ⟨?_, h2⟩
      intro x hx
      rcases List.mem_cons.mp hx with rfl | h
      · exact hpos x (List.mem_cons_self _ _)
      · exact h1 x h
    · by_cases he : e.amount ≤ 0
      · rw [transferLoop_cons_drop B c e rest r s hr he]
        exact ih r s (fun y hy => hpos y (List.mem_cons_of_mem _ hy)) hs
      · simp only [transferLoop_cons_consume B c e rest r s hr he]
        have hmove : 0 < min e.amount r :=
          lt_min (hpos e (List.mem_cons_self _ _)) (not_le.mp hr)
        obtain ⟨h1, h2⟩ := ih (r - min e.amount r)
          (addInventory s B c ⟨e.time, min e.amount r, e.unitCost,
            e.unitCost * min e.amount r, e.sourceFiles⟩)
          (fun y hy => hpos y (List.mem_cons_of_mem _ hy))
          (InvPos_addInventory hs hmove B c)
        refine ⟨?_, h2⟩
        intro x hx
        rcases List.mem_append.mp hx with h | h
        · by_cases hc : eps12 < e.amount - min e.amount r
          · rw [if_pos hc] at h
            have hx2 := List.mem_singleton.mp h
            subst hx2
            exact lt_trans eps12_pos hc
          · rw [if_neg hc] at h
            cases h
        · exact h1 x h

theorem handleBuy_pos (s : State) (tx : Tx) (hs : InvPos s) (hq : tx.amount ≠ 0) :
    InvPos (handleBuy s tx) := by
  have hpos : (0 : Dec) < |tx.amount| := abs_pos.mpr hq
  exact InvPos_addInventory hs hpos tx.wallet tx.commodity

theorem handleIncome_pos (s : State) (tx : Tx) (hs : InvPos s) :
    InvPos (handleIncome s tx) := by
  simp only [handleIncome]
  by_cases hz : tx.amount = 0
  · rw [if_pos hz]
    exact hs
  · rw [if_neg hz]
    have hpos : (0 : Dec) < |tx.amount| := abs_pos.mpr hz
    have h1 : InvPos (addInventory s tx.wallet tx.commodity
        ⟨tx.time, |tx.amount|,
          (if tx.cost = 0 then 0 else if |tx.amount| = 0 then 0 else tx.cost / |tx.amount|),
          (if tx.cost = 0 then 0 else tx.cost), [tx.sourceFile]⟩) :=
      InvPos_addInventory hs hpos tx.wallet tx.commodity
    exact fun w1 c1 x hx => h1 w1 c1 x hx

theorem handleSell_pos (s : State) (tx : Tx) (hs : InvPos s) :
    InvPos (handleSell s tx) := by
  simp only [handleSell, handleSellCore]
  by_cases hz : |tx.amount| = 0
  · rw [if_pos hz]
    exact hs
  · rw [if_neg hz]
    intro w1 c1 x hx
    by_cases h : w1 = tx.wallet ∧ c1 = tx.commodity
    · obtain ⟨rfl, rfl⟩ := h
      simp only [updInv_same] at hx
      exact sellLoop_pos _ _ _ _ _ (fun y hy => hs _ _ y hy) x hx
    · simp only [updInv_other _ _ _ _ _ _ h] at hx
      exact hs w1 c1 x hx

theorem handleConvert_pos (s : State) (tx : Tx) (hs : InvPos s) (hq : tx.amount ≠ 0) :
    InvPos (handleConvert s tx) := by
  unfold handleConvert
  split_ifs with h1 h2
  · exact handleSell_pos s tx hs
  · exact handleBuy_pos s tx hs hq
  · exact hs

theorem handleTransfer_pos (s : State) (tx : Tx) (hs : InvPos s) :
    InvPos (handleTransfer s tx) := by
  simp only [handleTransfer]
  split_ifs with h1 h2
  · exact hs
  · exact hs
  · obtain ⟨hsur, hst⟩ := transferLoop_pos tx.wallet tx.commodity
      (s.inventories (trimStr tx.pairedComment) tx.commodity) |tx.amount| s
      (fun y hy => hs _ _ y hy) hs
    intro w1 c1 x hx
    by_cases h : w1 = trimStr tx.pairedComment ∧ c1 = tx.commodity
    · obtain ⟨rfl, rfl⟩ := h
      simp only [updInv_same] at hx
      exact hsur x hx
    · simp only [updInv_other _ _ _ _ _ _ h] at hx
      exact hst w1 c1 x hx

/-! ## Observational congruence: handlers read only inventories and gains -/

theorem Obs_addInventory {s1 s2 : State} (h : Obs s1 s2) (w c : String)
    (e : InventoryEntry) : Obs (addInventory s1 w c e) (addInventory s2 w c e) := by
  obtain ⟨hi, ht⟩ := h
  exact ⟨by simp only [addInventory, hi], by simp only [addInventory, ht]⟩

theorem Obs_handleBuy {s1 s2 : State} (h : Obs s1 s2) (tx : Tx) :
    Obs (handleBuy s1 tx) (handleBuy s2 tx) :=
  Obs_addInventory h tx.wallet tx.commodity _

theorem Obs_handleIncome {s1 s2 : State} (h : Obs s1 s2) (tx : Tx) :
    Obs (handleIncome s1 tx) (handleIncome s2 tx) := by
  obtain ⟨hi, ht⟩ := h
  simp only [handleIncome]
  by_cases hz : tx.amount = 0
  · rw [if_pos hz, if_pos hz]
    exact ⟨hi, ht⟩
  · rw [if_neg hz, if_neg hz]
    constructor
    · simp only [addInventory, hi]
    · simp only [addInventory, hi, ht]

theorem Obs_handleSell {s1 s2 : State} (h : Obs s1 s2) (tx : Tx) :
    Obs (handleSell s1 tx) (handleSell s2 tx) := by
  obtain ⟨hi, ht⟩ := h
  simp only [handleSell, handleSellCore]
  by_cases hz : |tx.amount| = 0
  · rw [if_pos hz, if_pos hz]
    exact ⟨hi, ht⟩
  · rw [if_neg hz, if_neg hz]
    exact ⟨by simp only [hi], by simp only [hi, ht]⟩

theorem Obs_transferLoop (B c : String) :
    ∀ (l : List InventoryEntry) (r : Dec) (s1 s2 : State), Obs s1 s2 →
      (transferLoop B c l r s1).newSrcInv = (transferLoop B c l r s2).newSrcInv ∧
        (transferLoop B c l r s1).remaining = (transferLoop B c l r s2).remaining ∧
        Obs (transferLoop B c l r s1).state (transferLoop B c l r s2).state := by
  intro l
  induction l with
  | nil =>
    intro r s1 s2 h
    exact ⟨rfl, rfl, h⟩
  | cons e rest ih =>
    intro r s1 s2 h
    by_cases hr : r ≤ 0
    · simp only [transferLoop_cons_skip B c e rest r _ hr]
      obtain ⟨h1, h2, h3⟩ := ih r s1 s2 h
      exact ⟨by rw [h1], h2, h3⟩
    · by_cases he : e.amount ≤ 0
      · rw [transferLoop_cons_drop B c e rest r s1 hr he,
          transferLoop_cons_drop B c e rest r s2 hr he]
        exact ih r s1 s2 h
      · simp only [transferLoop_cons_consume B c e rest r _ hr he]
        obtain ⟨h1, h2, h3⟩ := ih (r - min e.amount r)
          (addInventory s1 B c ⟨e.time, min e.amount r, e.unitCost,
            e.unitCost * min e.amount r, e.sourceFiles⟩)
          (addInventory s2 B c ⟨e.time, min e.amount r, e.unitCost,
            e.unitCost * min e.amount r, e.sourceFiles⟩)
          (Obs_addInventory h B c _)
        exact ⟨by rw [h1], h2, h3⟩

theorem Obs_handleTransfer {s1 s2 : State} (h : Obs s1 s2) (tx : Tx) :
    Obs (handleTransfer s1 tx) (handleTransfer s2 tx) := by
  obtain ⟨hi, ht⟩ := h
  simp only [handleTransfer]
  by_cases hz : |tx.amount| = 0
  · rw [if_pos hz, if_pos hz]
    exact ⟨hi, ht⟩
  · rw [if_neg hz, if_neg hz]
    by_cases hsrc : trimStr tx.pairedComment = ""
    · rw [if_pos hsrc, if_pos hsrc]
      exact ⟨hi, ht⟩
    · rw [if_neg hsrc, if_neg hsrc]
      have hbkt : s1.inventories (trimStr tx.pairedComment) tx.commodity =
          s2.inventories (trimStr tx.pairedComment) tx.commodity := by rw [hi]
      obtain ⟨h1, h2, h3⟩ := Obs_transferLoop tx.wallet tx.commodity
        (s1.inventories (trimStr tx.pairedComment) tx.commodity) |tx.amount| s1 s2 ⟨hi, ht⟩
      rw [hbkt] at h1 h3 ⊢
      obtain ⟨h3i, h3t⟩ := h3
      constructor
      · simp only [h3i, h1]
      · simp only [h3t]

theorem Obs_handleConvert {s1 s2 : State} (h : Obs s1 s2) (tx : Tx) :
    Obs (handleConvert s1 tx) (handleConvert s2 tx) := by
  simp only [handleConvert]
  split_ifs
  · exact Obs_handleSell h tx
  · exact Obs_handleBuy h tx
  · exact h

set_option maxHeartbeats 4000000 in
/-- `selectHandler` always picks one of the five handlers. -/
theorem selectHandler_cases (tx : Tx) :
    selectHandler tx = handleBuy ∨ selectHandler tx = handleSell ∨
      selectHandler tx = handleIncome ∨ selectHandler tx = handleConvert ∨
      selectHandler tx = handleTransfer := by
  delta selectHandler
  dsimp only
  by_cases h1 : normalizeType tx.type = "buy"
  · rw [if_pos h1]
    tauto
  · rw [if_neg h1]
    by_cases h2 : normalizeType tx.type = "sell"
    · rw [if_pos h2]
      tauto
    · rw [if_neg h2]
      by_cases h3 : normalizeType tx.type = "income"
      · rw [if_pos h3]
        tauto
      · rw [if_neg h3]
        by_cases h4 : normalizeType tx.type = "reward"
        · rw [if_pos h4]
          tauto
        · rw [if_neg h4]
          by_cases h5 : normalizeType tx.type = "staking"
          · rw [if_pos h5]
            tauto
          · rw [if_neg h5]
            by_cases h6 : normalizeType tx.type = "deposit"
            · rw [if_pos h6]
              tauto
            · rw [if_neg h6]
              by_cases h7 : normalizeType tx.type = "convert"
              · rw [if_pos h7]
                tauto
              · rw [if_neg h7]
                by_cases h8 : normalizeType tx.type = "trade"
                · rw [if_pos h8]
                  tauto
                · rw [if_neg h8]
                  by_cases h9 : normalizeType tx.type = "transfer"
                  · rw [if_pos h9]
                    tauto
                  · rw [if_neg h9]
                    by_cases h10 : (stringsContains (toLowerStr tx.type) "sell" || decide (tx.amount < 0)) = true
                    · rw [if_pos h10]
                      tauto
                    · rw [if_neg h10]
                      by_cases h11 : (stringsContains (toLowerStr tx.type) "buy" || decide (tx.amount > 0)) = true
                      · rw [if_pos h11]
                        tauto
                      · rw [if_neg h11]
                        by_cases h12 : (stringsContains (toLowerStr tx.type) "reward" || stringsContains (toLowerStr tx.type) "staking" || stringsContains (toLowerStr tx.type) "deposit" || stringsContains (toLowerStr tx.type) "income") = true
                        · rw [if_pos h12]
                          tauto
                        · rw [if_neg h12]
                          by_cases h13 : (stringsContains (toLowerStr tx.type) "convert" || stringsContains (toLowerStr tx.type) "trade") = true
                          · rw [if_pos h13]
                            tauto
                          · rw [if_neg h13]
                            by_cases h14 : stringsContains (toLowerStr tx.type) "transfer" = true
                            · rw [if_pos h14]
                              tauto
                            · rw [if_neg h14]
                              by_cases h15 : tx.amount > 0
                              · rw [if_pos h15]
                                tauto
                              · rw [if_neg h15]
                                tauto

theorem Obs_dispatch {s1 s2 : State} (h : Obs s1 s2) (tx : Tx) :
    Obs (dispatch s1 tx) (dispatch s2 tx) := by
  rcases selectHandler_cases tx with hh | hh | hh | hh | hh <;>
    simp only [dispatch, hh]
  · exact Obs_handleBuy h tx
  · exact Obs_handleSell h tx
  · exact Obs_handleIncome h tx
  · exact Obs_handleConvert h tx
  · exact Obs_handleTransfer h tx

theorem processTransactions_obs :
    ∀ (txs : List Tx) (s1 s2 : State), Obs s1 s2 →
      Obs (processTransactions s1 txs) (processTransactions s2 txs) := by
  intro txs
  induction txs with
  | nil =>
    intro s1 s2 h
    exact h
  | cons tx rest ih =>
    intro s1 s2 h
    simp only [processTransactions, List.foldl] at ih ⊢
    exact ih _ _ (Obs_dispatch h tx)

/-! ## Claim theorems -/

/-- C9 (confirmed): replay determinism — applying the same ordered transaction list via
`processTransactions` to two fresh states constructed with the same parameters yields
identical Gain Accumulator contents (`TaxYears`) in both runs. -/
theorem replay_determinism (txs : List Tx) (v : Bool) (wfs cfs : List String)
    (s1 s2 : State) (h1 : s1 = NewState v wfs cfs) (h2 : s2 = NewState v wfs cfs) :
    (processTransactions s1 txs).taxYears = (processTransactions s2 txs).taxYears := by
  subst h1
  subst h2
  rfl

/-- Witness for C9: two fresh states built from the same parameters, run over a
one-transaction stream. -/
theorem replay_determinism_witness :
    NewState false ["a"] ["btc"] = NewState false ["a"] ["btc"] ∧
      (processTransactions (NewState false ["a"] ["btc"])
          [⟨"w", 0, "buy", "BTC", "", 2, 200, 0, 0, "f", "", ""⟩]).taxYears =
        (processTransactions (NewState false ["a"] ["btc"])
          [⟨"w", 0, "buy", "BTC", "", 2, 200, 0, 0, "f", "", ""⟩]).taxYears :=
  ⟨rfl, replay_determinism [⟨"w", 0, "buy", "BTC", "", 2, 200, 0, 0, "f", "", ""⟩]
    false ["a"] ["btc"] _ _ rfl rfl⟩

/-- C2 counterexample: when the transfer's source wallet equals its destination wallet
(both "a" — the claim quantifies over any wallets A and B), `handleTransfer`'s final
overwrite of the source bucket (main.go line 888) discards the lots that were re-created
in the destination bucket during the loop: transferring the whole single lot (quantity 1,
unit cost 5, held quantity ≥ transfer quantity) leaves the bucket empty, so the total
quantity × unit cost over the wallets' buckets drops from 5 to 0 instead of staying
unchanged. -/
theorem transfer_basis_preservation_cex :
    c2State.inventories "a" "X" = [⟨0, 1, 5, 5, []⟩] ∧
      sumAmount (c2State.inventories "a" "X") = 1 ∧
      basisSum (c2State.inventories "a" "X") = 5 ∧
      c2Tx.wallet = "a" ∧ trimStr c2Tx.pairedComment = "a" ∧ |c2Tx.amount| = 1 ∧
      (handleTransfer c2State c2Tx).inventories "a" "X" = [] ∧
      basisSum ((handleTransfer c2State c2Tx).inventories "a" "X") = 0 := by
  have h1 : trimStr "a" = "a" := rfl
  have h2 : ("a" = "") = False := by decide
  have habs1 : |(1 : Dec)| = 1 := by norm_num
  refine ⟨rfl, by norm_num [sumAmount, c2State], by norm_num [basisSum, c2State], rfl,
    rfl, by norm_num [c2Tx], ?_, ?_⟩
  · norm_num [handleTransfer, c2Tx, c2State, h1, h2, habs1, transferLoop, addInventory,
      updInv, eps12, min_def, List.insertionSort, List.orderedInsert, entryLE]
  · norm_num [handleTransfer, c2Tx, c2State, h1, h2, habs1, transferLoop, addInventory,
      updInv, eps12, min_def, List.insertionSort, List.orderedInsert, entryLE, basisSum]

/-- C2 (corrected): basis preservation on transfer, for distinct source and destination
wallets.  The transfer changes no gain bucket, every lot in the destination bucket is
either an original destination lot or carries the acquisition timestamp and unit cost of
a source lot, all unrelated buckets are untouched, and the total quantity × unit cost
over the two buckets is conserved up to `transferDroppedBasis` — the basis of consumed
source lots whose positive residual is at most 1e-12, which the loop silently discards
(main.go line 879); when nothing is dropped, conservation is exact. -/
theorem transfer_basis_preservation (s : State) (tx : Tx)
    (hsrc : trimStr tx.pairedComment ≠ "")
    (hAB : trimStr tx.pairedComment ≠ tx.wallet)
    (hq : tx.amount ≠ 0)
    (hheld : |tx.amount| ≤
      sumAmount (s.inventories (trimStr tx.pairedComment) tx.commodity)) :
    (basisSum ((handleTransfer s tx).inventories (trimStr tx.pairedComment) tx.commodity) +
        basisSum ((handleTransfer s tx).inventories tx.wallet tx.commodity) +
        transferDroppedBasis (s.inventories (trimStr tx.pairedComment) tx.commodity)
          |tx.amount| =
      basisSum (s.inventories (trimStr tx.pairedComment) tx.commodity) +
        basisSum (s.inventories tx.wallet tx.commodity)) ∧
    (transferDroppedBasis (s.inventories (trimStr tx.pairedComment) tx.commodity)
        |tx.amount| = 0 →
      basisSum ((handleTransfer s tx).inventories (trimStr tx.pairedComment) tx.commodity) +
          basisSum ((handleTransfer s tx).inventories tx.wallet tx.commodity) =
        basisSum (s.inventories (trimStr tx.pairedComment) tx.commodity) +
          basisSum (s.inventories tx.wallet tx.commodity)) ∧
    (∀ x ∈ (handleTransfer s tx).inventories tx.wallet tx.commodity,
      x ∈ s.inventories tx.wallet tx.commodity ∨
        ∃ e ∈ s.inventories (trimStr tx.pairedComment) tx.commodity,
          x.time = e.time ∧ x.unitCost = e.unitCost) ∧
    (handleTransfer s tx).taxYears = s.taxYears ∧
    (∀ w1 c1, ¬(w1 = trimStr tx.pairedComment ∧ c1 = tx.commodity) →
      ¬(w1 = tx.wallet ∧ c1 = tx.commodity) →
      (handleTransfer s tx).inventories w1 c1 = s.inventories w1 c1) := by
  have hq0 : ¬|tx.amount| = 0 := fun h => hq (abs_eq_zero.mp h)
  have hBA : ¬(tx.wallet = trimStr tx.pairedComment ∧ tx.commodity = tx.commodity) :=
    fun h => hAB (h.1.symm)
  have hT : handleTransfer s tx =
      { (transferLoop tx.wallet tx.commodity
          (s.inventories (trimStr tx.pairedComment) tx.commodity) |tx.amount| s).state with
        inventories := (updInv (transferLoop tx.wallet tx.commodity
            (s.inventories (trimStr tx.pairedComment) tx.commodity) |tx.amount| s).state.inventories
          (trimStr tx.pairedComment) tx.commodity
          (transferLoop tx.wallet tx.commodity
            (s.inventories (trimStr tx.pairedComment) tx.commodity) |tx.amount| s).newSrcInv) } := by
    rw [handleTransfer, if_neg hq0, if_neg hsrc]
  rw [hT]
  refine ⟨?_, ?_, ?_, ?_, ?_⟩
  · simp only [updInv_same, updInv_other _ _ _ _ _ _ hBA]
    exact transferLoop_basis tx.wallet tx.commodity _ _ s
  · intro hz
    have hb := transferLoop_basis tx.wallet tx.commodity
      (s.inventories (trimStr tx.pairedComment) tx.commodity) |tx.amount| s
    simp only [updInv_same, updInv_other _ _ _ _ _ _ hBA]
    rw [hz] at hb
    linarith
  · intro x hx
    simp only [updInv_other _ _ _ _ _ _ hBA] at hx
    exact transferLoop_dest_mem tx.wallet tx.commodity _ _ _ x hx
  · exact transferLoop_taxYears _ _ _ _ _
  · intro w1 c1 hA hB
    simp only [updInv_other _ _ _ _ _ _ hA]
    exact transferLoop_inv_other _ _ _ _ _ _ _ hB

/-- Witness for C2: moving 1 of 2 units (unit cost 3) from wallet "a" to wallet "b"
conserves total basis at 6 with nothing dropped. -/
theorem transfer_basis_preservation_witness :
    trimStr "a" ≠ "" ∧ trimStr "a" ≠ "b" ∧ ((1 : Dec) ≠ 0) ∧
      |(1 : Dec)| ≤ sumAmount (c2bState.inventories (trimStr "a") "X") ∧
      (transferDroppedBasis (c2bState.inventories (trimStr "a") "X") |(1 : Dec)| = 0 →
        basisSum ((handleTransfer c2bState c2bTx).inventories (trimStr "a") "X") +
            basisSum ((handleTransfer c2bState c2bTx).inventories "b" "X") =
          basisSum (c2bState.inventories (trimStr "a") "X") +
            basisSum (c2bState.inventories "b" "X")) :=
  ⟨by decide, by decide, by norm_num,
    by
      have h : trimStr "a" = "a" := rfl
      norm_num [h, c2bState, sumAmount],
    (transfer_basis_preservation c2bState c2bTx (by decide) (by decide)
      (by norm_num [c2bTx])
      (by
        have h : trimStr "a" = "a" := rfl
        norm_num [h, c2bState, c2bTx, sumAmount])).2.1⟩

/-- C8 counterexample: a buy-typed transaction of quantity zero does reach the ledger
(nothing drops zero-quantity records upstream, and `handleBuy` — unlike the sell,
income, convert and transfer handlers — has no zero-quantity guard), and it inserts a
resident lot with quantity 0, violating the positivity invariant. -/
theorem lot_positivity_cex :
    c8Tx.amount = 0 ∧
      (processTransactions (NewState false [] []) [c8Tx]).inventories "w" "B" =
        [⟨0, 0, 0, 0, ["f"]⟩] ∧
      ¬InvPos (processTransactions (NewState false [] []) [c8Tx]) := by
  have hnb : normalizeType "buy" = "buy" := rfl
  have heval : (processTransactions (NewState false [] []) [c8Tx]).inventories "w" "B" =
      [⟨0, 0, 0, 0, ["f"]⟩] := by
    norm_num [processTransactions, List.foldl, dispatch, selectHandler, hnb, handleBuy,
      addInventory, updInv, NewState, c8Tx, List.insertionSort, List.orderedInsert,
      entryLE]
  refine ⟨rfl, heval, ?_⟩
  intro h
  have h2 := h "w" "B" ⟨0, 0, 0, 0, ["f"]⟩ (by rw [heval]; exact List.mem_singleton_self _)
  norm_num at h2

/-- C8 (corrected): lot positivity for nonzero-quantity transactions — a zero-quantity
buy does reach the ledger and creates a zero-quantity lot (see the counterexample), but
for every transaction with nonzero quantity, every ledger operation reached through the
dispatcher maps a state whose resident lots all have strictly positive quantity to a
state with the same property. -/
theorem lot_positivity (s : State) (tx : Tx) (hs : InvPos s) (hq : tx.amount ≠ 0) :
    InvPos (dispatch s tx) := by
  rcases selectHandler_cases tx with hh | hh | hh | hh | hh <;> simp only [dispatch, hh]
  · exact handleBuy_pos s tx hs hq
  · exact handleSell_pos s tx hs
  · exact handleIncome_pos s tx hs
  · exact handleConvert_pos s tx hs hq
  · exact handleTransfer_pos s tx hs

/-- Witness for C8: a buy of quantity 1 applied to the fresh (trivially positive) state
preserves lot positivity. -/
theorem lot_positivity_witness :
    InvPos (NewState false [] []) ∧ ((1 : Dec) ≠ 0) ∧
      InvPos (dispatch (NewState false [] [])
        ⟨"w", 0, "buy", "B", "", 1, 100, 0, 0, "f", "", ""⟩) :=
  ⟨fun _ _ e he => absurd he (List.not_mem_nil e), by norm_num,
    lot_positivity (NewState false [] []) ⟨"w", 0, "buy", "B", "", 1, 100, 0, 0, "f", "", ""⟩
      (fun _ _ e he => absurd he (List.not_mem_nil e)) (by norm_num)⟩

/-- C10 (confirmed): filter and verbosity noninterference — the `Verbose` flag and the
wallet/commodity filter sets held in `State` influence only logging; two runs of
`processTransactions` over the same transaction list on fresh states that differ only in
those parameters produce identical `Inventories` and identical `TaxYears`. -/
theorem filter_verbosity_noninterference (txs : List Tx) (v1 v2 : Bool)
    (wf1 wf2 cf1 cf2 : List String) :
    (processTransactions (NewState v1 wf1 cf1) txs).inventories =
      (processTransactions (NewState v2 wf2 cf2) txs).inventories ∧
    (processTransactions (NewState v1 wf1 cf1) txs).taxYears =
      (processTransactions (NewState v2 wf2 cf2) txs).taxYears :=
  processTransactions_obs txs _ _ ⟨rfl, rfl⟩

/-- C5 counterexample: a single-row group whose type field contains the income marker
"staking" and whose subtype contains the allocation marker "allocation" on a crypto
asset is classified Transfer, not Income — `parseCSVFile` takes the allocation/transfer
branch (main.go line 271) before ever consulting the income flag, so the claimed
Income-over-Transfer precedence fails. -/
theorem classification_precedence_cex :
    isIncomeGroup [c5Rec] = true ∧ isTransferGroup [c5Rec] = true ∧
      classifyKrakenGroup [c5Rec] = GroupKind.Transfer := by
  refine ⟨by decide, by decide, by decide⟩

/-- C5 (corrected): precedence is the reverse of the claim.  A group with an
allocation-like subtype marker and at least one crypto row is classified Transfer even
when an income-like marker is present; the Income classification applies exactly to the
income-marked groups that do not take that transfer branch. -/
theorem classification_precedence_amended :
    (∀ group : List RawRecord, isIncomeGroup group = true → isTransferGroup group = false →
      classifyKrakenGroup group = GroupKind.Income) ∧
    (∀ group : List RawRecord, isTransferGroup group = true →
      (krakenCryptoRows group).isEmpty = false →
      classifyKrakenGroup group = GroupKind.Transfer) := by
  constructor
  · intro g h1 h2
    simp [classifyKrakenGroup, h1, h2]
  · intro g h1 h2
    simp [classifyKrakenGroup, h1, h2]

/-- Witness for C5: a pure income group (type "reward", no allocation subtype) is
classified Income. -/
theorem classification_precedence_witness :
    isIncomeGroup [c5RecIncome] = true ∧ isTransferGroup [c5RecIncome] = false ∧
      classifyKrakenGroup [c5RecIncome] = GroupKind.Income :=
  ⟨by decide, by decide,
    classification_precedence_amended.1 [c5RecIncome] (by decide) (by decide)⟩

/-- C7 (confirmed): buy semantics — a Kraken buy of quantity Q > 0 with cost field C ≠ 0
and fee F reaches the ledger with total cost C + F (fee capitalised,
`parseKrakenRecord` lines 444-453), and `handleBuy` inserts a lot with unit cost
(C + F) / Q carrying the transaction's timestamp; the bucket is time-sorted after the
insertion, no other bucket changes, and `TaxYears` is untouched. -/
theorem buy_semantics (s : State) (w c cur src ref pc : String) (t : ℤ) (Q C F p : Dec)
    (hQ : 0 < Q) (hC : C ≠ 0) :
    ((handleBuy s ⟨w, t, "buy", c, cur, Q, krakenTotalCost "buy" C p Q F, 0, F, src, ref,
        pc⟩).inventories w c).Perm
      ({ time := t, amount := Q, unitCost := (C + F) / Q, totalCost := (C + F) / Q * Q,
          sourceFiles := [src] } :: s.inventories w c) ∧
    List.Sorted entryLE
      ((handleBuy s ⟨w, t, "buy", c, cur, Q, krakenTotalCost "buy" C p Q F, 0, F, src, ref,
        pc⟩).inventories w c) ∧
    (handleBuy s ⟨w, t, "buy", c, cur, Q, krakenTotalCost "buy" C p Q F, 0, F, src, ref,
        pc⟩).taxYears = s.taxYears ∧
    ∀ w1 c1, ¬(w1 = w ∧ c1 = c) →
      (handleBuy s ⟨w, t, "buy", c, cur, Q, krakenTotalCost "buy" C p Q F, 0, F, src, ref,
        pc⟩).inventories w1 c1 = s.inventories w1 c1 := by
  have hcost : krakenTotalCost "buy" C p Q F = C + F := by
    simp [krakenTotalCost, hC]
  have habs : |Q| = Q := abs_of_pos hQ
  have hQ0 : Q ≠ 0 := ne_of_gt hQ
  refine ⟨?_, ?_, ?_, ?_⟩
  · simp only [handleBuy, hcost, habs, if_neg hQ0]
    rw [addInventory_bucket]
    exact (List.perm_insertionSort _ _).trans (List.perm_append_singleton _ _)
  · simp only [handleBuy, hcost, habs, if_neg hQ0]
    rw [addInventory_bucket]
    exact List.sorted_insertionSort entryLE _
  · rfl
  · intro w1 c1 h
    exact addInventory_other _ _ _ _ _ _ h

/-- C4 (confirmed): holding-period boundary — selling Q ≤ q units out of a single lot
acquired at t0 realizes gain (P − F) − u·Q, classified long-term exactly when
saleT − t0 is at least 365 days (31536000 seconds), else short-term.  A sale at exactly
t0 + 365 days lands in the long bucket, at t0 + 364 days in the short bucket. -/
theorem holding_period_boundary (s : State) (w c cur src ref pc : String)
    (fs : List String) (t0 saleT : ℤ) (q u tc Q P F : Dec)
    (hbucket : s.inventories w c = [⟨t0, q, u, tc, fs⟩])
    (hQ : 0 < Q) (hQq : Q ≤ q) :
    (handleSell s ⟨w, saleT, "sell", c, cur, Q, P, 0, F, src, ref, pc⟩).taxYears
        (yearOf saleT) w c =
      ⟨(s.taxYears (yearOf saleT) w c).short +
          (if 31536000 ≤ saleT - t0 then 0 else P - F - u * Q),
        (s.taxYears (yearOf saleT) w c).long +
          (if 31536000 ≤ saleT - t0 then P - F - u * Q else 0),
        (s.taxYears (yearOf saleT) w c).income⟩ := by
  have habs : |Q| = Q := abs_of_pos hQ
  have hQ0 : Q ≠ 0 := ne_of_gt hQ
  have hQn : ¬Q ≤ 0 := not_le.mpr hQ
  have hq0 : ¬(⟨t0, q, u, tc, fs⟩ : InventoryEntry).amount ≤ 0 :=
    not_le.mpr (lt_of_lt_of_le hQ hQq)
  have hloop : sellLoop saleT Q (P - F) [⟨t0, q, u, tc, fs⟩] Q =
      ⟨(if eps12 < q - Q then [⟨t0, q - Q, u, u * (q - Q), fs⟩] else []), 0,
        (if 31536000 ≤ saleT - t0 then 0 else P - F - u * Q),
        (if 31536000 ≤ saleT - t0 then P - F - u * Q else 0)⟩ := by
    rw [sellLoop_cons_consume saleT Q (P - F) ⟨t0, q, u, tc, fs⟩ [] Q hQn hq0]
    simp only [min_eq_right hQq, sub_self, sellLoop_nil, if_neg hQ0, holding_le_iff,
      mul_div_cancel_right₀ _ hQ0, zero_add, List.append_nil]
  simp only [handleSell, handleSellCore, habs, if_neg hQ0, hbucket]
  simp only [ne_eq, not_true_eq_false, if_false, ite_self, hloop, updTY_same]

/-- Witness for C4: a lot acquired at t = 0 and sold at exactly t = 31536000 seconds
(365 days) realizes its gain in the long-term bucket. -/
theorem holding_period_boundary_witness :
    c4State.inventories "m" "Z" = [⟨0, 1, 10, 10, []⟩] ∧ (0 : Dec) < 1 ∧ (1 : Dec) ≤ 1 ∧
      (handleSell c4State ⟨"m", 31536000, "sell", "Z", "", 1, 20, 0, 0, "f", "", ""⟩).taxYears
          (yearOf 31536000) "m" "Z" =
        ⟨(c4State.taxYears (yearOf 31536000) "m" "Z").short +
            (if 31536000 ≤ (31536000 : ℤ) - 0 then 0 else 20 - 0 - 10 * 1),
          (c4State.taxYears (yearOf 31536000) "m" "Z").long +
            (if 31536000 ≤ (31536000 : ℤ) - 0 then 20 - 0 - 10 * 1 else 0),
          (c4State.taxYears (yearOf 31536000) "m" "Z").income⟩ :=
  ⟨rfl, by norm_num, by norm_num,
    holding_period_boundary c4State "m" "Z" "" "f" "" "" [] 0 31536000 1 10 10 1 20 0
      rfl (by norm_num) (by norm_num)⟩

/-- C1 (confirmed): FIFO consumption order.  First conjunct, general: for any bucket of
strictly positive lots in strictly ascending timestamp order, if the sell loop draws
from a lot (its resident quantity at that timestamp strictly decreases) then every
earlier-timestamped lot has been fully consumed (nothing remains resident at its
timestamp).  Second conjunct, the claim's instance: after buys of quantity 2 at t=0 and
quantity 3 at t=1 into the same (wallet, commodity), a sell of quantity 2 fully consumes
the t=0 lot and leaves the t=1 lot untouched. -/
theorem fifo_consumption_order :
    (∀ (t : ℤ) (a P q : Dec) (inv : List InventoryEntry) (e1 e2 : InventoryEntry),
        (∀ e ∈ inv, 0 < e.amount) →
        List.Pairwise (fun x y => x.time < y.time) inv →
        e1 ∈ inv → e2 ∈ inv → e1.time < e2.time →
        amountAt (sellLoop t a P inv q).newInv e2.time < amountAt inv e2.time →
        amountAt (sellLoop t a P inv q).newInv e1.time = 0) ∧
    (processTransactions (NewState false [] []) [c1Buy1, c1Buy2, c1Sell]).inventories
        "w" "BTC" = [⟨1, 3, 150, 450, ["f2"]⟩] := by
  constructor
  · intro t a P q inv
    induction inv generalizing q with
    | nil =>
      intro e1 e2 _ _ h1 _ _ _
      cases h1
    | cons e rest ih =>
      intro e1 e2 hpos hpw h1 h2 hlt hdrawn
      by_cases hq : q ≤ 0
      · rw [sellLoop_of_nonpos _ _ _ _ _ hq] at hdrawn
        exact absurd hdrawn (lt_irrefl _)
      · have hepos : ¬e.amount ≤ 0 := not_le.mpr (hpos e (List.mem_cons_self _ _))
        rcases List.mem_cons.mp h2 with rfl | h2r
        · rcases List.mem_cons.mp h1 with rfl | h1r
          · exact absurd hlt (lt_irrefl _)
          · exact absurd hlt (not_lt.mpr (le_of_lt ((List.pairwise_cons.mp hpw).1 e1 h1r)))
        · have hne2 : e.time ≠ e2.time := ne_of_lt ((List.pairwise_cons.mp hpw).1 e2 h2r)
          simp only [sellLoop_cons_consume t a P e rest q hq hepos] at hdrawn ⊢
          have hresid0 : ∀ τ : ℤ, e.time ≠ τ →
              amountAt (if eps12 < e.amount - min e.amount q then
                [InventoryEntry.mk e.time (e.amount - min e.amount q) e.unitCost
                  (e.unitCost * (e.amount - min e.amount q)) e.sourceFiles] else []) τ = 0 := by
            intro τ hτ
            split
            · simp [amountAt_cons, amountAt_nil, hτ]
            · rfl
          rw [amountAt_append] at hdrawn ⊢
          rw [hresid0 _ hne2, zero_add] at hdrawn
          rw [amountAt_cons, if_neg hne2, zero_add] at hdrawn
          by_cases hq2 : q - min e.amount q ≤ 0
          · rw [sellLoop_of_nonpos _ _ _ _ _ hq2] at hdrawn
            exact absurd hdrawn (lt_irrefl _)
          · rcases List.mem_cons.mp h1 with rfl | h1r
            · have huq : min e1.amount q ≠ q := by
                intro h
                rw [h, sub_self] at hq2
                exact hq2 (le_refl 0)
              have hue : min e1.amount q = e1.amount :=
                (min_choice e1.amount q).resolve_right huq
              have hc : ¬eps12 < e1.amount - min e1.amount q := by
                rw [hue, sub_self]
                exact not_lt.mpr (le_of_lt eps12_pos)
              rw [if_neg hc, amountAt_nil, zero_add]
              exact amountAt_eq_zero fun x hx => by
                obtain ⟨y, hy, hxy⟩ := sellLoop_time_mem t a P rest _ x hx
                rw [hxy]
                exact ne_of_gt ((List.pairwise_cons.mp hpw).1 y hy)
            · have hne1 : e.time ≠ e1.time := ne_of_lt ((List.pairwise_cons.mp hpw).1 e1 h1r)
              rw [hresid0 _ hne1, zero_add]
              exact ih (q - min e.amount q) e1 e2
                (fun x hx => hpos x (List.mem_cons_of_mem _ hx))
                (List.pairwise_cons.mp hpw).2 h1r h2r hlt hdrawn
  · have hnb : normalizeType "buy" = "buy" := rfl
    have hns : normalizeType "sell" = "sell" := rfl
    have hsb : ("sell" = "buy") = False := by decide
    have habs2 : |(2 : Dec)| = 2 := by norm_num
    have habs3 : |(3 : Dec)| = 3 := by norm_num
    have habsn2 : |(-2 : Dec)| = 2 := by norm_num
    norm_num [processTransactions, List.foldl, dispatch, selectHandler, hnb, hns, hsb, handleBuy,
      handleSell, handleSellCore, addInventory, updInv, updTY, sellLoop,
      List.insertionSort, List.orderedInsert, entryLE, c1Buy1, c1Buy2, c1Sell, NewState,
      eps12, min_def, habs2, habs3, habsn2]

/-- Witness for C1: applying the general FIFO-order conjunct to the two-lot bucket
[2 at t=0, 3 at t=1] with a sell of quantity 3 — the t=1 lot is drawn from (3 → 2), so
nothing remains at t=0. -/
theorem fifo_consumption_order_witness :
    (∀ e ∈ [(⟨0, 2, 100, 200, []⟩ : InventoryEntry), ⟨1, 3, 150, 450, []⟩], 0 < e.amount) ∧
      List.Pairwise (fun x y : InventoryEntry => x.time < y.time)
        [(⟨0, 2, 100, 200, []⟩ : InventoryEntry), ⟨1, 3, 150, 450, []⟩] ∧
      amountAt (sellLoop 2 3 300
          [(⟨0, 2, 100, 200, []⟩ : InventoryEntry), ⟨1, 3, 150, 450, []⟩] 3).newInv 1 <
        amountAt [(⟨0, 2, 100, 200, []⟩ : InventoryEntry), ⟨1, 3, 150, 450, []⟩] 1 ∧
      amountAt (sellLoop 2 3 300
          [(⟨0, 2, 100, 200, []⟩ : InventoryEntry), ⟨1, 3, 150, 450, []⟩] 3).newInv 0 = 0 :=
  ⟨by decide, by decide,
    by norm_num [sellLoop, amountAt, eps12, min_def],
    fifo_consumption_order.1 2 3 300 3
      [⟨0, 2, 100, 200, []⟩, ⟨1, 3, 150, 450, []⟩] ⟨0, 2, 100, 200, []⟩ ⟨1, 3, 150, 450, []⟩
      (by decide) (by decide) (by decide) (by decide) (by decide)
      (by norm_num [sellLoop, amountAt, eps12, min_def])⟩

/-- C3 (confirmed): sell arithmetic — a sell of Q units with proceeds P and fee F over a
two-lot bucket uses net proceeds P − F, fully consumes the first lot (q1 < Q ≤ q1 + q2),
allocates proceeds proportionally ((P − F)·use/Q, not the lots' own prices), books each
slice's gain (allocated proceeds minus use×unit-cost) into the (sale-year, wallet,
commodity) bucket, and leaves every other gain bucket and inventory bucket unchanged.
The lots' timestamps are chosen so the first slice is long-term and the second
short-term, which separates the two allocations in the result. -/
theorem sell_arithmetic (s : State) (w c cur src ref pc : String) (fs1 fs2 : List String)
    (t1 t2 saleT : ℤ) (q1 q2 u1 u2 tc1 tc2 Q P F : Dec)
    (hbucket : s.inventories w c = [⟨t1, q1, u1, tc1, fs1⟩, ⟨t2, q2, u2, tc2, fs2⟩])
    (hq1 : 0 < q1) (hq1Q : q1 < Q) (hQsum : Q ≤ q1 + q2)
    (hlong : 31536000 ≤ saleT - t1) (hshort : saleT - t2 < 31536000) :
    (handleSell s ⟨w, saleT, "sell", c, cur, Q, P, 0, F, src, ref, pc⟩).inventories w c =
      (if eps12 < q2 - (Q - q1) then
        [⟨t2, q2 - (Q - q1), u2, u2 * (q2 - (Q - q1)), fs2⟩] else []) ∧
    (handleSell s ⟨w, saleT, "sell", c, cur, Q, P, 0, F, src, ref, pc⟩).taxYears
        (yearOf saleT) w c =
      ⟨(s.taxYears (yearOf saleT) w c).short + ((P - F) * (Q - q1) / Q - u2 * (Q - q1)),
        (s.taxYears (yearOf saleT) w c).long + ((P - F) * q1 / Q - u1 * q1),
        (s.taxYears (yearOf saleT) w c).income⟩ ∧
    (∀ y1 w1 c1, ¬(y1 = yearOf saleT ∧ w1 = w ∧ c1 = c) →
      (handleSell s ⟨w, saleT, "sell", c, cur, Q, P, 0, F, src, ref, pc⟩).taxYears y1 w1 c1 =
        s.taxYears y1 w1 c1) ∧
    (∀ w1 c1, ¬(w1 = w ∧ c1 = c) →
      (handleSell s ⟨w, saleT, "sell", c, cur, Q, P, 0, F, src, ref, pc⟩).inventories w1 c1 =
        s.inventories w1 c1) := by
  have hQpos : 0 < Q := lt_trans hq1 hq1Q
  have habs : |Q| = Q := abs_of_pos hQpos
  have hQ0 : Q ≠ 0 := ne_of_gt hQpos
  have hQn : ¬Q ≤ 0 := not_le.mpr hQpos
  have hq1n : ¬(⟨t1, q1, u1, tc1, fs1⟩ : InventoryEntry).amount ≤ 0 := not_le.mpr hq1
  have hmin1 : min q1 Q = q1 := min_eq_left (le_of_lt hq1Q)
  have hrem2 : 0 < Q - q1 := sub_pos.mpr hq1Q
  have hrem2n : ¬Q - q1 ≤ 0 := not_le.mpr hrem2
  have hq2ge : Q - q1 ≤ q2 := by linarith
  have hq2 : 0 < q2 := lt_of_lt_of_le hrem2 hq2ge
  have hq2n : ¬(⟨t2, q2, u2, tc2, fs2⟩ : InventoryEntry).amount ≤ 0 := not_le.mpr hq2
  have hmin2 : min q2 (Q - q1) = Q - q1 := min_eq_right hq2ge
  have hlong1 : (365 : Dec) ≤ ((saleT - t1 : ℤ) : Dec) / 86400 := (holding_le_iff _).mpr hlong
  have hshort2 : ¬(365 : Dec) ≤ ((saleT - t2 : ℤ) : Dec) / 86400 := by
    rw [holding_le_iff]
    exact not_le.mpr hshort
  have heps0 : ¬eps12 < (0 : Dec) := not_lt.mpr (le_of_lt eps12_pos)
  have hloop : sellLoop saleT Q (P - F)
      [⟨t1, q1, u1, tc1, fs1⟩, ⟨t2, q2, u2, tc2, fs2⟩] Q =
      ⟨(if eps12 < q2 - (Q - q1) then
          [⟨t2, q2 - (Q - q1), u2, u2 * (q2 - (Q - q1)), fs2⟩] else []),
        0,
        (P - F) * (Q - q1) / Q - u2 * (Q - q1),
        (P - F) * q1 / Q - u1 * q1⟩ := by
    rw [sellLoop_cons_consume _ _ _ _ _ _ hQn hq1n]
    simp only [hmin1]
    rw [sellLoop_cons_consume _ _ _ _ _ _ hrem2n hq2n]
    simp only [hmin2, sub_self, heps0, if_false, sellLoop_nil, if_neg hQ0, if_pos hlong1,
      if_neg hshort2, List.append_nil, List.nil_append, zero_add, add_zero]
  refine ⟨?_, ?_, ?_, ?_⟩
  · simp only [handleSell, handleSellCore, habs, if_neg hQ0, hbucket]
    simp only [ne_eq, not_true_eq_false, if_false, ite_self, hloop, updInv_same]
  · simp only [handleSell, handleSellCore, habs, if_neg hQ0, hbucket]
    simp only [ne_eq, not_true_eq_false, if_false, ite_self, hloop, updTY_same]
  · intro y1 w1 c1 h
    simp only [handleSell, handleSellCore, habs, if_neg hQ0, hbucket]
    simp only [ne_eq, not_true_eq_false, if_false, ite_self, hloop]
    exact updTY_other _ _ _ _ _ _ _ _ h
  · intro w1 c1 h
    simp only [handleSell, handleSellCore, habs, if_neg hQ0, hbucket]
    simp only [ne_eq, not_true_eq_false, if_false, ite_self, hloop]
    exact updInv_other _ _ _ _ _ _ h

/-- Witness for C3: the claim's scenario — selling 5 units drawn from lots of quantity 2
(unit cost 7) and 3 (unit cost 11) with proceeds 500 allocates 200 and 300 respectively:
long-term gain 200 − 14 = 186 on the first lot, short-term gain 300 − 33 = 267 on the
second, and the bucket is emptied. -/
theorem sell_arithmetic_witness :
    c3State.inventories "m" "Z" = [⟨0, 2, 7, 14, []⟩, ⟨31449600, 3, 11, 33, []⟩] ∧
      (0 : Dec) < 2 ∧ (2 : Dec) < 5 ∧ (5 : Dec) ≤ 2 + 3 ∧
      (31536000 ≤ (31536000 : ℤ) - 0) ∧ ((31536000 : ℤ) - 31449600 < 31536000) ∧
      (handleSell c3State ⟨"m", 31536000, "sell", "Z", "", 5, 500, 0, 0, "f", "", ""⟩).inventories
          "m" "Z" =
        (if eps12 < 3 - (5 - 2 : Dec) then
          [⟨31449600, 3 - (5 - 2), 11, 11 * (3 - (5 - 2)), []⟩] else []) ∧
      (handleSell c3State ⟨"m", 31536000, "sell", "Z", "", 5, 500, 0, 0, "f", "", ""⟩).taxYears
          (yearOf 31536000) "m" "Z" =
        ⟨(c3State.taxYears (yearOf 31536000) "m" "Z").short + ((500 - 0) * (5 - 2) / 5 - 11 * (5 - 2)),
          (c3State.taxYears (yearOf 31536000) "m" "Z").long + ((500 - 0) * 2 / 5 - 7 * 2),
          (c3State.taxYears (yearOf 31536000) "m" "Z").income⟩ :=
  ⟨rfl, by norm_num, by norm_num, by norm_num, by norm_num, by norm_num,
    (sell_arithmetic c3State "m" "Z" "" "f" "" "" [] [] 0 31449600 31536000 2 3 7 11 14 33
      5 500 0 rfl (by norm_num) (by norm_num) (by norm_num) (by norm_num) (by norm_num)).1,
    (sell_arithmetic c3State "m" "Z" "" "f" "" "" [] [] 0 31449600 31536000 2 3 7 11 14 33
      5 500 0 rfl (by norm_num) (by norm_num) (by norm_num) (by norm_num) (by norm_num)).2.1⟩

/-- C6 (confirmed): oversell degradation — a sell requesting Q units when only q < Q are
held returns no error (the handler is total and Go always returns nil), matches only the
available q, allocates proceeds pro-rata as (P − F)·q/Q, books that single slice's gain,
leaves the bucket empty with no negative or borrowed lot, changes no other gain or
inventory bucket (so the unmatched quantity's proceeds are recognized nowhere), and
raises the shortfall warning condition. -/
theorem oversell_degradation (s : State) (w c cur src ref pc : String) (fs : List String)
    (t0 saleT : ℤ) (q u tc Q P F : Dec)
    (hbucket : s.inventories w c = [⟨t0, q, u, tc, fs⟩])
    (hq : 0 < q) (hqQ : q < Q) (hshort : saleT - t0 < 31536000)
    (hwarn : eps9 < Q - q) :
    (handleSell s ⟨w, saleT, "sell", c, cur, Q, P, 0, F, src, ref, pc⟩).inventories w c = [] ∧
    (handleSell s ⟨w, saleT, "sell", c, cur, Q, P, 0, F, src, ref, pc⟩).taxYears
        (yearOf saleT) w c =
      ⟨(s.taxYears (yearOf saleT) w c).short + ((P - F) * q / Q - u * q),
        (s.taxYears (yearOf saleT) w c).long,
        (s.taxYears (yearOf saleT) w c).income⟩ ∧
    (∀ y1 w1 c1, ¬(y1 = yearOf saleT ∧ w1 = w ∧ c1 = c) →
      (handleSell s ⟨w, saleT, "sell", c, cur, Q, P, 0, F, src, ref, pc⟩).taxYears y1 w1 c1 =
        s.taxYears y1 w1 c1) ∧
    (∀ w1 c1, ¬(w1 = w ∧ c1 = c) →
      (handleSell s ⟨w, saleT, "sell", c, cur, Q, P, 0, F, src, ref, pc⟩).inventories w1 c1 =
        s.inventories w1 c1) ∧
    sellWarned s ⟨w, saleT, "sell", c, cur, Q, P, 0, F, src, ref, pc⟩ = true := by
  have hQpos : 0 < Q := lt_trans hq hqQ
  have habs : |Q| = Q := abs_of_pos hQpos
  have hQ0 : Q ≠ 0 := ne_of_gt hQpos
  have hQn : ¬Q ≤ 0 := not_le.mpr hQpos
  have hqn : ¬(⟨t0, q, u, tc, fs⟩ : InventoryEntry).amount ≤ 0 := not_le.mpr hq
  have hmin : min q Q = q := min_eq_left (le_of_lt hqQ)
  have hshort2 : ¬(365 : Dec) ≤ ((saleT - t0 : ℤ) : Dec) / 86400 := by
    rw [holding_le_iff]
    exact not_le.mpr hshort
  have heps0 : ¬eps12 < (0 : Dec) := not_lt.mpr (le_of_lt eps12_pos)
  have hloop : sellLoop saleT Q (P - F) [⟨t0, q, u, tc, fs⟩] Q =
      ⟨[], Q - q, (P - F) * q / Q - u * q, 0⟩ := by
    rw [sellLoop_cons_consume _ _ _ _ _ _ hQn hqn]
    simp only [hmin, sub_self, heps0, if_false, sellLoop_nil, if_neg hQ0,
      if_neg hshort2, List.append_nil, List.nil_append, zero_add, add_zero]
  refine ⟨?_, ?_, ?_, ?_, ?_⟩
  · simp only [handleSell, handleSellCore, habs, if_neg hQ0, hbucket]
    simp only [ne_eq, not_true_eq_false, if_false, ite_self, hloop, updInv_same]
  · simp only [handleSell, handleSellCore, habs, if_neg hQ0, hbucket]
    simp only [ne_eq, not_true_eq_false, if_false, ite_self, hloop, updTY_same, add_zero]
  · intro y1 w1 c1 h
    simp only [handleSell, handleSellCore, habs, if_neg hQ0, hbucket]
    simp only [ne_eq, not_true_eq_false, if_false, ite_self, hloop]
    exact updTY_other _ _ _ _ _ _ _ _ h
  · intro w1 c1 h
    simp only [handleSell, handleSellCore, habs, if_neg hQ0, hbucket]
    simp only [ne_eq, not_true_eq_false, if_false, ite_self, hloop]
    exact updInv_other _ _ _ _ _ _ h
  · simp only [sellWarned, handleSellCore, habs, if_neg hQ0, hbucket]
    simp only [ne_eq, not_true_eq_false, if_false, ite_self, hloop]
    exact decide_eq_true hwarn

/-- Witness for C6: the claim's scenario — after buying 1 ETH at cost 1000, selling
2 ETH for proceeds 3000 at day 100 yields short-term gain 3000·(1/2) − 1000 = 500,
leaves the bucket empty, and raises the shortfall warning. -/
theorem oversell_degradation_witness :
    c6State.inventories "e" "ETH" = [⟨0, 1, 1000, 1000, []⟩] ∧
      (0 : Dec) < 1 ∧ (1 : Dec) < 2 ∧ ((8640000 : ℤ) - 0 < 31536000) ∧ eps9 < (2 : Dec) - 1 ∧
      (handleSell c6State ⟨"e", 8640000, "sell", "ETH", "", 2, 3000, 0, 0, "f", "", ""⟩).inventories
          "e" "ETH" = [] ∧
      (handleSell c6State ⟨"e", 8640000, "sell", "ETH", "", 2, 3000, 0, 0, "f", "", ""⟩).taxYears
          (yearOf 8640000) "e" "ETH" =
        ⟨(c6State.taxYears (yearOf 8640000) "e" "ETH").short + ((3000 - 0) * 1 / 2 - 1000 * 1),
          (c6State.taxYears (yearOf 8640000) "e" "ETH").long,
          (c6State.taxYears (yearOf 8640000) "e" "ETH").income⟩ ∧
      sellWarned c6State ⟨"e", 8640000, "sell", "ETH", "", 2, 3000, 0, 0, "f", "", ""⟩ = true :=
  ⟨rfl, by norm_num, by norm_num, by norm_num, by norm_num [eps9],
    (oversell_degradation c6State "e" "ETH" "" "f" "" "" [] 0 8640000 1 1000 1000 2 3000 0
      rfl (by norm_num) (by norm_num) (by norm_num) (by norm_num [eps9])).1,
    (oversell_degradation c6State "e" "ETH" "" "f" "" "" [] 0 8640000 1 1000 1000 2 3000 0
      rfl (by norm_num) (by norm_num) (by norm_num) (by norm_num [eps9])).2.1,
    (oversell_degradation c6State "e" "ETH" "" "f" "" "" [] 0 8640000 1 1000 1000 2 3000 0
      rfl (by norm_num) (by norm_num) (by norm_num) (by norm_num [eps9])).2.2.2.2⟩

/-- Witness for C7: buying 2 units with cost 200 and fee 10 inserts a lot with unit cost
105 into the empty fresh state. -/
theorem buy_semantics_witness :
    (0 : Dec) < 2 ∧ (200 : Dec) ≠ 0 ∧
      (((handleBuy (NewState false [] [])
          ⟨"w", 7, "buy", "BTC", "", 2, krakenTotalCost "buy" 200 0 2 10, 0, 10, "f", "",
            ""⟩).inventories "w" "BTC").Perm
        ({ time := 7, amount := 2, unitCost := (200 + 10) / 2,
            totalCost := (200 + 10) / 2 * 2, sourceFiles := ["f"] } ::
          (NewState false [] []).inventories "w" "BTC")) :=
  ⟨by norm_num, by norm_num,
    (buy_semantics (NewState false [] []) "w" "BTC" "" "f" "" "" 7 2 200 10 0
      (by norm_num) (by norm_num)).1⟩

end CryptoTax
